import Mathlib

/-!
Verification of the `command-pool` program (`src/main.rs`).

The program runs `total_tasks` invocations of an external command with at
most `concurrency` of them in flight, replacing each task as it completes,
and finally prints aggregate statistics.  The development below shallowly
embeds the program:

* the pure pieces (outcome classification, the startup check, the final
  statistics computation) become Lean functions;
* the concurrent scheduler loop and the per-task updates of the shared
  atomic counters and mutex-guarded duration vectors become a small-step
  transition system `Step` over `PoolState`, where every individually
  atomic operation of the source (one `fetch_add`, one locked `Vec::push`,
  one spawn, one `join_next`, the break check) is one transition, and the
  transitions of the scheduler and of all in-flight tasks interleave
  nondeterministically.

Durations are modelled in nanoseconds as `Nat`; Rust's `Duration / u32`
is floor division on total nanoseconds, but the divisor at
`main.rs` 268/281 is `len() as u32` — a truncating cast, modelled by
`lenU32` — and `Duration` division by zero panics, which aborts the run
before any report (modelled by `statsPanic` and the `panicked` outcome).
`iter().min()/max()` are the list minimum/maximum.  Exit codes are
`Option Int` (`None` when the process terminated without a determinable
code, e.g. by signal).
-/

namespace CommandPool

/-- Captured result of a finished subprocess as used at `main.rs` lines
102-123: the exit code (`none` when no code is determinable), and the
captured stdout and stderr (already lossily decoded to strings). -/
structure ProcessOutput where
  code : Option Int
  stdout : String
  stderr : String
deriving DecidableEq

/-- Result of `cmd.output().await` (`main.rs` line 99): either a process
result, or a spawn error carrying its message. -/
inductive SpawnResult where
  | ok (out : ProcessOutput)
  | err (msg : String)
deriving DecidableEq

/-- Which branch of the match at `main.rs` lines 102-129 a task result
takes: `output.status.success()` holds exactly when the exit code is 0,
and the `Err` branch (spawn error) is never a success.  This Boolean
decides which counter (`successful_tasks` / `failed_tasks`) and which
duration vector a finishing task updates. -/
def recordSuccess : SpawnResult → Bool
  | .ok o => o.code == some 0
  | .err _ => false

/-- The classified outcome of one task (spec section 3, `Outcome`). -/
inductive Outcome where
  | success (exitCode : Int)
  | exitFailure (exitCode : Int)
  | spawnError (message : String)
deriving DecidableEq

/-- `exitFailure` and `spawnError` are both counted as failures; only a
`success` outcome increments `successful_tasks` (`main.rs` 107/115/125). -/
def countsAsFailure : Outcome → Bool
  | .success _ => false
  | .exitFailure _ => true
  | .spawnError _ => true

/-- The match at `main.rs` lines 102-129, as a classification function:
an `Ok` process result with exit code 0 is a success, any other `Ok`
result is an exit failure (the displayed code uses
`code().unwrap_or_default()`, i.e. default 0 when no code is
determinable), and an `Err` from the spawn primitive is a spawn error
with empty captured stdout/stderr.  The second and third components are
the stdout/stderr the task later prints. -/
def classifyOutcome : SpawnResult → Outcome × String × String
  | .ok o =>
      if o.code == some 0 then
        (.success (o.code.getD 0), o.stdout, o.stderr)
      else
        (.exitFailure (o.code.getD 0), o.stdout, o.stderr)
  | .err e => (.spawnError e, "", "")

/-- The command-line arguments (`struct Args`, `main.rs` lines 9-31). -/
structure Args where
  concurrency : Nat
  total_tasks : Nat
  quiet : Bool
  delay : Nat
  command : List String
deriving DecidableEq

/-- `main.rs` lines 46-52: an empty command list is a startup error
(`none`); otherwise the command splits into the executable
(`args.command[0]`) and its arguments (`args.command[1..]`). -/
def checkCommand : List String → Option (String × List String)
  | [] => none
  | c :: rest => some (c, rest)

/-- The process exit code: 1 when the command list is empty (`main.rs`
lines 46-49, `std::process::exit(1)` before anything is launched or
printed beyond the error message), and 0 otherwise since `main` ends in
`Ok(())` (`main.rs` line 292); internal faults (task panics) are not
modelled, as no transition of the model panics. -/
def runExitCode (a : Args) : Nat :=
  if a.command.isEmpty then 1 else 0

/-- Statistics for one outcome class (`main.rs` 265-288): average
(`sum / len`, integer division on nanoseconds), minimum and maximum. -/
structure DurationStats where
  avg : Nat
  minD : Nat
  maxD : Nat
deriving DecidableEq

/-- The divisor actually used at `main.rs` 268/281:
`successful_durations_locked.len() as u32`, a cast that truncates the
64-bit `usize` length to 32 bits. -/
def lenU32 (l : List Nat) : Nat :=
  l.length % 2 ^ 32

/-- The duration-statistics block for one class (`main.rs` 265-275 for
successes, 277-288 for failures): emitted only when the duration vector
is non-empty, in which case the average is `sum / (len() as u32)`
(integer division by the 32-bit-truncated length) and min/max are
`iter().min()/max().unwrap()`.  When the truncated length is zero but
the vector is not empty the Rust `Duration` division panics instead of
producing this value — see `statsPanic`. -/
def statsOf (l : List Nat) : Option DurationStats :=
  if l.isEmpty then none
  else some { avg := l.sum / lenU32 l, minD := l.min?.getD 0, maxD := l.max?.getD 0 }

/-- Whether computing the statistics block for this log panics: the
vector is non-empty (so the division at `main.rs` 268/281 runs) but its
length truncated `as u32` is zero, making `sum_duration / 0` a
`Duration` division by zero, which panics and aborts the run before any
report is printed. -/
def statsPanic (l : List Nat) : Bool :=
  !l.isEmpty && (lenU32 l == 0)

/-- Progress of one spawned task unit through the individually atomic
operations of the closure body (`main.rs` 88-152):

* `spawned`: the future exists but has not run yet;
* `running`: `running_tasks.fetch_add(1)` done (line 89), subprocess in
  flight;
* `counted`: the subprocess result is known and the matching outcome
  counter was incremented (line 107, 115 or 125);
* `pushed`: the duration was pushed onto the matching duration vector
  (line 108, 116 or 126);
* `completedInc`: `completed_tasks.fetch_add(1)` done (line 131);
* `finished`: `running_tasks.fetch_sub(1)` done (line 132) and the
  closure returned, so the task is joinable. -/
inductive TaskPhase where
  | spawned
  | running
  | counted
  | pushed
  | completedInc
  | finished
deriving DecidableEq

/-- The task is between its `running_tasks` increment and decrement. -/
def TaskPhase.isActive : TaskPhase → Bool
  | .running | .counted | .pushed | .completedInc => true
  | _ => false

/-- The task has incremented its outcome counter (line 107/115/125). -/
def TaskPhase.hasCounted : TaskPhase → Bool
  | .counted | .pushed | .completedInc | .finished => true
  | _ => false

/-- The task has pushed its duration (line 108/116/126). -/
def TaskPhase.hasPushed : TaskPhase → Bool
  | .pushed | .completedInc | .finished => true
  | _ => false

/-- The task has incremented `completed_tasks` (line 131). -/
def TaskPhase.isDone : TaskPhase → Bool
  | .completedInc | .finished => true
  | _ => false

/-- The task is in the middle of its record: its outcome counter or
duration push has happened but `completed_tasks` was not incremented
yet (strictly between line 107/115/125 and line 131). -/
def TaskPhase.midRecord : TaskPhase → Bool
  | .counted | .pushed => true
  | _ => false

/-- One spawned task unit: its id, the result its `cmd.output().await`
call yields, its measured duration (nanoseconds), and how far its body
has progressed. -/
structure TaskUnit where
  id : Nat
  res : SpawnResult
  dur : Nat
  phase : TaskPhase
deriving DecidableEq

/-- One run configuration: the CLI numbers plus the environment, i.e.
what the spawn primitive returns for each task id and how long each
task takes (spec section 1 treats the spawn primitive as an external
collaborator). -/
structure Config where
  total_tasks : Nat
  concurrency : Nat
  delay : Nat
  spawn_result : Nat → SpawnResult
  task_dur : Nat → Nat

/-- `args.concurrency.min(args.total_tasks)` (`main.rs` line 75): the
size of the initial batch and the in-flight ceiling. -/
def poolBound (cfg : Config) : Nat :=
  min cfg.concurrency cfg.total_tasks

/-- Observable scheduling events: a task launch (`join_set.spawn`) and a
stagger sleep (`time::sleep`, `main.rs` line 156). -/
inductive LaunchEvent where
  | launch (id : Nat)
  | sleep (ms : Nat)
deriving DecidableEq

/-- The stagger sleep after initial-launch iteration `i` (`main.rs`
lines 154-157): performed only when `delay > 0` and `i` is not the last
iteration of the initial batch of size `mI`. -/
def staggerEvents (mI d i : Nat) : List LaunchEvent :=
  if 0 < d ∧ i < mI - 1 then [.sleep d] else []

/-- The event trace of the first `k` iterations of the initial spawn
loop (`main.rs` lines 75-158): each iteration launches task `i + 1` and
then possibly sleeps. -/
def initPrefix (mI d k : Nat) : List LaunchEvent :=
  ((List.range k).map (fun i => LaunchEvent.launch (i + 1) :: staggerEvents mI d i)).flatten

/-- Where the single-threaded scheduler logic of `main` is:

* `init i`: about to run iteration `i` of the initial spawn loop
  (`main.rs` lines 75-158);
* `joinWait`: at `join_set.join_next().await` (line 161);
* `postJoin`: a task was joined; about to check `task_id_counter <
  total_tasks` and possibly spawn a replacement (lines 164-242);
* `checkBreak`: about to check `completed_tasks == total_tasks`
  (lines 244-246);
* `done`: the loop has exited; the final report is computed. -/
inductive SchedPC where
  | init (i : Nat)
  | joinWait
  | postJoin
  | checkBreak
  | done
deriving DecidableEq

/-- The shared state of one run: the scheduler position, the
`task_id_counter` local to `main` (line 72), the four `AtomicUsize`
counters (lines 65-68), the two mutex-guarded duration vectors (lines
69-70), the spawned-but-not-joined tasks (the `JoinSet`), and three
history variables: the joined tasks, the launched ids in launch order,
and the launch/sleep event trace. -/
structure PoolState where
  pc : SchedPC
  task_id_counter : Nat
  completed_tasks : Nat
  successful_tasks : Nat
  failed_tasks : Nat
  running_tasks : Nat
  successful_durations : List Nat
  failed_durations : List Nat
  in_flight : List TaskUnit
  joined_tasks : List TaskUnit
  launched_ids : List Nat
  events : List LaunchEvent
deriving DecidableEq

/-- The state at `main.rs` line 72: nothing launched, all counters 0. -/
def initState : PoolState where
  pc := .init 0
  task_id_counter := 0
  completed_tasks := 0
  successful_tasks := 0
  failed_tasks := 0
  running_tasks := 0
  successful_durations := []
  failed_durations := []
  in_flight := []
  joined_tasks := []
  launched_ids := []
  events := []

/-- The task unit created by `join_set.spawn` for id `id`: its spawn
result and duration come from the environment, and its body has not run
yet. -/
def mkTask (cfg : Config) (id : Nat) : TaskUnit where
  id := id
  res := cfg.spawn_result id
  dur := cfg.task_dur id
  phase := .spawned

/-- Effect of `task_id_counter += 1; join_set.spawn(...)` (`main.rs`
lines 76-152 and 165-241): assign the next id, add the new task to the
join set, and record the launch (followed by `stagger`, the stagger
events of an initial launch, empty for replacements). -/
def spawnTask (cfg : Config) (s : PoolState) (pc' : SchedPC)
    (stagger : List LaunchEvent) : PoolState :=
  { s with
    pc := pc'
    task_id_counter := s.task_id_counter + 1
    in_flight := s.in_flight ++ [mkTask cfg (s.task_id_counter + 1)]
    launched_ids := s.launched_ids ++ [s.task_id_counter + 1]
    events := s.events ++ LaunchEvent.launch (s.task_id_counter + 1) :: stagger }

/-- Small-step semantics of the run.  Scheduler transitions follow
`main.rs` lines 72-247; the `task*` transitions are the individually
atomic operations of any in-flight task's body and interleave freely
with the scheduler and with each other. -/
inductive Step (cfg : Config) : PoolState → PoolState → Prop where
  | initSpawn (s : PoolState) (i : Nat) (hpc : s.pc = .init i)
      (hi : i < poolBound cfg) :
      Step cfg s (spawnTask cfg s (.init (i + 1))
        (staggerEvents (poolBound cfg) cfg.delay i))
  | initDone (s : PoolState) (i : Nat) (hpc : s.pc = .init i)
      (hi : ¬ i < poolBound cfg) :
      Step cfg s { s with pc := .joinWait }
  | joinNone (s : PoolState) (hpc : s.pc = .joinWait)
      (hempty : s.in_flight = []) :
      Step cfg s { s with pc := .done }
  | joinOne (s : PoolState) (l₁ l₂ : List TaskUnit) (t : TaskUnit)
      (hpc : s.pc = .joinWait) (hf : s.in_flight = l₁ ++ t :: l₂)
      (ht : t.phase = .finished) :
      Step cfg s { s with
        pc := .postJoin
        in_flight := l₁ ++ l₂
        joined_tasks := s.joined_tasks ++ [t] }
  | replSpawn (s : PoolState) (hpc : s.pc = .postJoin)
      (hlt : s.task_id_counter < cfg.total_tasks) :
      Step cfg s (spawnTask cfg s .checkBreak [])
  | replSkip (s : PoolState) (hpc : s.pc = .postJoin)
      (hge : ¬ s.task_id_counter < cfg.total_tasks) :
      Step cfg s { s with pc := .checkBreak }
  | breakYes (s : PoolState) (hpc : s.pc = .checkBreak)
      (hc : s.completed_tasks = cfg.total_tasks) :
      Step cfg s { s with pc := .done }
  | breakNo (s : PoolState) (hpc : s.pc = .checkBreak)
      (hc : ¬ s.completed_tasks = cfg.total_tasks) :
      Step cfg s { s with pc := .joinWait }
  | taskStart (s : PoolState) (l₁ l₂ : List TaskUnit) (t : TaskUnit)
      (hf : s.in_flight = l₁ ++ t :: l₂) (hp : t.phase = .spawned) :
      Step cfg s { s with
        in_flight := l₁ ++ { t with phase := .running } :: l₂
        running_tasks := s.running_tasks + 1 }
  | taskCount (s : PoolState) (l₁ l₂ : List TaskUnit) (t : TaskUnit)
      (hf : s.in_flight = l₁ ++ t :: l₂) (hp : t.phase = .running) :
      Step cfg s { s with
        in_flight := l₁ ++ { t with phase := .counted } :: l₂
        successful_tasks :=
          if recordSuccess t.res then s.successful_tasks + 1 else s.successful_tasks
        failed_tasks :=
          if recordSuccess t.res then s.failed_tasks else s.failed_tasks + 1 }
  | taskPush (s : PoolState) (l₁ l₂ : List TaskUnit) (t : TaskUnit)
      (hf : s.in_flight = l₁ ++ t :: l₂) (hp : t.phase = .counted) :
      Step cfg s { s with
        in_flight := l₁ ++ { t with phase := .pushed } :: l₂
        successful_durations :=
          if recordSuccess t.res then s.successful_durations ++ [t.dur]
          else s.successful_durations
        failed_durations :=
          if recordSuccess t.res then s.failed_durations
          else s.failed_durations ++ [t.dur] }
  | taskComplete (s : PoolState) (l₁ l₂ : List TaskUnit) (t : TaskUnit)
      (hf : s.in_flight = l₁ ++ t :: l₂) (hp : t.phase = .pushed) :
      Step cfg s { s with
        in_flight := l₁ ++ { t with phase := .completedInc } :: l₂
        completed_tasks := s.completed_tasks + 1 }
  | taskFinish (s : PoolState) (l₁ l₂ : List TaskUnit) (t : TaskUnit)
      (hf : s.in_flight = l₁ ++ t :: l₂) (hp : t.phase = .completedInc) :
      Step cfg s { s with
        in_flight := l₁ ++ { t with phase := .finished } :: l₂
        running_tasks := s.running_tasks - 1 }

/-- A state the run can be in: reachable from `initState` by `Step`. -/
def Reachable (cfg : Config) (s : PoolState) : Prop :=
  Relation.ReflTransGen (Step cfg) initState s

/-- Number of in-flight tasks between their `running_tasks` increment
and decrement; the value `running_tasks` tracks. -/
def countActive (l : List TaskUnit) : Nat :=
  l.countP (fun t => t.phase.isActive)

/-- Number of tasks that have incremented `completed_tasks`. -/
def countDone (l : List TaskUnit) : Nat :=
  l.countP (fun t => t.phase.isDone)

/-- Number of successful tasks that have incremented their counter. -/
def countSuccCounted (l : List TaskUnit) : Nat :=
  l.countP (fun t => recordSuccess t.res && t.phase.hasCounted)

/-- Number of failed tasks that have incremented their counter. -/
def countFailCounted (l : List TaskUnit) : Nat :=
  l.countP (fun t => !recordSuccess t.res && t.phase.hasCounted)

/-- Number of successful tasks that have pushed their duration. -/
def countSuccPushed (l : List TaskUnit) : Nat :=
  l.countP (fun t => recordSuccess t.res && t.phase.hasPushed)

/-- Number of failed tasks that have pushed their duration. -/
def countFailPushed (l : List TaskUnit) : Nat :=
  l.countP (fun t => !recordSuccess t.res && t.phase.hasPushed)

/-- The final summary block (`main.rs` lines 249-291): total, successful
and failed counts, success rate (`successful / total_tasks * 100`, `0`
when `total_tasks == 0`, lines 257-262), and the optional per-class
duration statistics. -/
structure FinalReport where
  total : Nat
  successful : Nat
  failed : Nat
  successRate : ℚ
  successStats : Option DurationStats
  failedStats : Option DurationStats
deriving DecidableEq

/-- The report computed from a state after the loop has exited. -/
def mkReport (cfg : Config) (s : PoolState) : FinalReport where
  total := s.completed_tasks
  successful := s.successful_tasks
  failed := s.failed_tasks
  successRate :=
    if 0 < cfg.total_tasks then
      (s.successful_tasks : ℚ) / (cfg.total_tasks : ℚ) * 100
    else 0
  successStats := statsOf s.successful_durations
  failedStats := statsOf s.failed_durations

/-- The all-zero report of a run that launched nothing. -/
def emptyReport : FinalReport where
  total := 0
  successful := 0
  failed := 0
  successRate := 0
  successStats := none
  failedStats := none

/-- What one invocation of the program can produce: a startup error
(empty command), a completed run with its printed report, or a panic in
the statistics computation that aborts the run with no report. -/
inductive MainOutcome where
  | startupError (exitCode : Nat)
  | finished (exitCode : Nat) (report : FinalReport)
  | panicked
deriving DecidableEq

/-- End-to-end behaviour of `main` for arguments `a` in environment
`env`/`durOf`: with an empty command list it exits 1 before launching
anything or printing a summary (`main.rs` 46-49); otherwise it runs the
scheduler to a `done` state and then, provided neither statistics block
panics (`main.rs` 268/281 divide by `len() as u32`), prints the report
of that state and exits 0 (`main.rs` 249-292); if either non-empty
duration log has a length that truncates to zero `as u32`, the
`Duration` division by zero panics and the run aborts with no report. -/
inductive MainBehavior (a : Args) (env : Nat → SpawnResult) (durOf : Nat → Nat) :
    MainOutcome → Prop where
  | emptyCommand (h : a.command = []) :
      MainBehavior a env durOf (.startupError 1)
  | run (cmd : String) (rest : List String) (s : PoolState)
      (hcmd : a.command = cmd :: rest)
      (hreach : Reachable ⟨a.total_tasks, a.concurrency, a.delay, env, durOf⟩ s)
      (hdone : s.pc = .done)
      (hps : statsPanic s.successful_durations = false)
      (hpf : statsPanic s.failed_durations = false) :
      MainBehavior a env durOf
        (.finished 0 (mkReport ⟨a.total_tasks, a.concurrency, a.delay, env, durOf⟩ s))
  | panicStats (cmd : String) (rest : List String) (s : PoolState)
      (hcmd : a.command = cmd :: rest)
      (hreach : Reachable ⟨a.total_tasks, a.concurrency, a.delay, env, durOf⟩ s)
      (hdone : s.pc = .done)
      (hp : statsPanic s.successful_durations = true ∨
        statsPanic s.failed_durations = true) :
      MainBehavior a env durOf .panicked

/-- The inductive invariant of one run.  Throughout,
`s.in_flight ++ s.joined_tasks` is the collection of all tasks spawned
so far. -/
structure Inv (cfg : Config) (s : PoolState) : Prop where
  spawned_eq : s.in_flight.length + s.joined_tasks.length = s.task_id_counter
  counter_le : s.task_id_counter ≤ cfg.total_tasks
  flight_le : s.in_flight.length ≤ poolBound cfg
  running_eq : s.running_tasks = countActive s.in_flight
  joined_fin : ∀ t ∈ s.joined_tasks, t.phase = .finished
  completed_eq : s.completed_tasks = countDone (s.in_flight ++ s.joined_tasks)
  succ_eq : s.successful_tasks = countSuccCounted (s.in_flight ++ s.joined_tasks)
  fail_eq : s.failed_tasks = countFailCounted (s.in_flight ++ s.joined_tasks)
  slog_len : s.successful_durations.length = countSuccPushed (s.in_flight ++ s.joined_tasks)
  flog_len : s.failed_durations.length = countFailPushed (s.in_flight ++ s.joined_tasks)
  dur_mem : ∀ t ∈ s.in_flight ++ s.joined_tasks, t.phase.hasPushed = true →
    (recordSuccess t.res = true → t.dur ∈ s.successful_durations) ∧
    (recordSuccess t.res = false → t.dur ∈ s.failed_durations)
  res_env : ∀ t ∈ s.in_flight ++ s.joined_tasks,
    t.res = cfg.spawn_result t.id ∧ t.dur = cfg.task_dur t.id
  launched_eq : s.launched_ids = List.range' 1 s.task_id_counter
  events_eq : s.events =
    initPrefix (poolBound cfg) cfg.delay (min s.task_id_counter (poolBound cfg)) ++
      (List.range' (poolBound cfg + 1) (s.task_id_counter - poolBound cfg)).map
        LaunchEvent.launch
  init_inv : ∀ i, s.pc = .init i → s.task_id_counter = i ∧ s.in_flight.length = i ∧
    s.joined_tasks = [] ∧ i ≤ poolBound cfg
  loop_ge : (∀ i, s.pc ≠ .init i) → poolBound cfg ≤ s.task_id_counter
  postjoin_len : s.pc = .postJoin → s.in_flight.length < poolBound cfg
  kJoin : s.pc = .joinWait →
    s.in_flight ≠ [] ∨ cfg.total_tasks ≤ s.task_id_counter ∨ poolBound cfg = 0
  kBreak : s.pc = .checkBreak → s.in_flight ≠ [] ∨ cfg.total_tasks ≤ s.task_id_counter
  mzero_pc : poolBound cfg = 0 → s.pc ≠ .postJoin
  mzero_counter : poolBound cfg = 0 → s.task_id_counter = 0
  done_inv : s.pc = .done → s.completed_tasks = cfg.total_tasks ∨ cfg.concurrency = 0

theorem countP_mid (p : TaskUnit → Bool) (l₁ l₂ : List TaskUnit) (t : TaskUnit) :
    (l₁ ++ t :: l₂).countP p = l₁.countP p + (l₂.countP p + if p t then 1 else 0) := by
  simp [List.countP_cons]

theorem countP_split (good h : TaskUnit → Bool) (l : List TaskUnit) :
    l.countP (fun t => good t && h t) + l.countP (fun t => !good t && h t) = l.countP h := by
  induction l with
  | nil => rfl
  | cons a l ihl =>
    simp only [List.countP_cons]
    cases hg : good a <;> cases hh : h a <;> simp [hg, hh] <;> omega

theorem initPrefix_succ (mI d k : Nat) :
    initPrefix mI d (k + 1) =
      initPrefix mI d k ++ LaunchEvent.launch (k + 1) :: staggerEvents mI d k := by
  simp [initPrefix, List.range_succ]

theorem inv_initState (cfg : Config) : Inv cfg initState where
  spawned_eq := rfl
  counter_le := Nat.zero_le _
  flight_le := Nat.zero_le _
  running_eq := rfl
  joined_fin := by intro t ht; simp [initState] at ht
  completed_eq := rfl
  succ_eq := rfl
  fail_eq := rfl
  slog_len := rfl
  flog_len := rfl
  dur_mem := by intro t ht; simp [initState] at ht
  res_env := by intro t ht; simp [initState] at ht
  launched_eq := rfl
  events_eq := by simp [initState, initPrefix]
  init_inv := by
    intro i h
    have h' : SchedPC.init 0 = SchedPC.init i := h
    injection h' with h'
    subst h'
    exact ⟨rfl, rfl, rfl, Nat.zero_le _⟩
  loop_ge := fun h => absurd rfl (h 0)
  postjoin_len := by intro h; simp [initState] at h
  kJoin := by intro h; simp [initState] at h
  kBreak := by intro h; simp [initState] at h
  mzero_pc := by intro _ h; simp [initState] at h
  mzero_counter := fun _ => rfl
  done_inv := by intro h; simp [initState] at h

theorem inv_initDone {cfg : Config} {s : PoolState} (ih : Inv cfg s) (i : Nat)
    (hpc : s.pc = .init i) (hi : ¬ i < poolBound cfg) :
    Inv cfg { s with pc := .joinWait } where
  spawned_eq := ih.spawned_eq
  counter_le := ih.counter_le
  flight_le := ih.flight_le
  running_eq := ih.running_eq
  joined_fin := ih.joined_fin
  completed_eq := ih.completed_eq
  succ_eq := ih.succ_eq
  fail_eq := ih.fail_eq
  slog_len := ih.slog_len
  flog_len := ih.flog_len
  dur_mem := ih.dur_mem
  res_env := ih.res_env
  launched_eq := ih.launched_eq
  events_eq := ih.events_eq
  init_inv := by intro i' h; exact absurd h (by simp)
  loop_ge := by
    intro _
    obtain ⟨hc, _, _, hm⟩ := ih.init_inv i hpc
    show poolBound cfg ≤ s.task_id_counter
    omega
  postjoin_len := by intro h; exact absurd h (by simp)
  kJoin := by
    intro _
    obtain ⟨_, hlen, _, _⟩ := ih.init_inv i hpc
    rcases eq_or_ne s.in_flight [] with he | he
    · right; right
      rw [he] at hlen
      simp at hlen
      omega
    · exact Or.inl he
  kBreak := by intro h; exact absurd h (by simp)
  mzero_pc := by intro _ h; exact absurd h (by simp)
  mzero_counter := fun hm => by
    obtain ⟨hc, _, _, _⟩ := ih.init_inv i hpc
    show s.task_id_counter = 0
    omega
  done_inv := by intro h; exact absurd h (by simp)

theorem inv_joinNone {cfg : Config} {s : PoolState} (ih : Inv cfg s)
    (hpc : s.pc = .joinWait) (hempty : s.in_flight = []) :
    Inv cfg { s with pc := .done } where
  spawned_eq := ih.spawned_eq
  counter_le := ih.counter_le
  flight_le := ih.flight_le
  running_eq := ih.running_eq
  joined_fin := ih.joined_fin
  completed_eq := ih.completed_eq
  succ_eq := ih.succ_eq
  fail_eq := ih.fail_eq
  slog_len := ih.slog_len
  flog_len := ih.flog_len
  dur_mem := ih.dur_mem
  res_env := ih.res_env
  launched_eq := ih.launched_eq
  events_eq := ih.events_eq
  init_inv := by intro i' h; exact absurd h (by simp)
  loop_ge := by
    intro _
    exact ih.loop_ge (by intro i; rw [hpc]; exact fun h => by cases h)
  postjoin_len := by intro h; exact absurd h (by simp)
  kJoin := by intro h; exact absurd h (by simp)
  kBreak := by intro h; exact absurd h (by simp)
  mzero_pc := by intro _ h; exact absurd h (by simp)
  mzero_counter := ih.mzero_counter
  done_inv := by
    intro _
    rcases ih.kJoin hpc with hne | hge | hm0
    · exact absurd hempty hne
    · left
      have hcle := ih.counter_le
      have hsp := ih.spawned_eq
      rw [hempty] at hsp
      simp at hsp
      have hjf := ih.joined_fin
      have hcd := ih.completed_eq
      rw [hempty] at hcd
      simp only [List.nil_append] at hcd
      have hall : countDone s.joined_tasks = s.joined_tasks.length := by
        rw [countDone, List.countP_eq_length]
        intro t ht
        rw [hjf t ht]
        rfl
      show s.completed_tasks = cfg.total_tasks
      omega
    · have hc0 := ih.mzero_counter hm0
      have hsp := ih.spawned_eq
      rw [hempty] at hsp
      simp at hsp
      have hje : s.joined_tasks = [] := List.length_eq_zero.mp (by omega)
      have hcd := ih.completed_eq
      rw [hempty, hje] at hcd
      simp [countDone] at hcd
      rcases Nat.eq_zero_or_pos cfg.total_tasks with hn | hn
      · left
        show s.completed_tasks = cfg.total_tasks
        omega
      · right
        have : poolBound cfg = 0 := hm0
        rw [poolBound] at this
        omega

theorem inv_replSkip {cfg : Config} {s : PoolState} (ih : Inv cfg s)
    (hpc : s.pc = .postJoin) (hge : ¬ s.task_id_counter < cfg.total_tasks) :
    Inv cfg { s with pc := .checkBreak } where
  spawned_eq := ih.spawned_eq
  counter_le := ih.counter_le
  flight_le := ih.flight_le
  running_eq := ih.running_eq
  joined_fin := ih.joined_fin
  completed_eq := ih.completed_eq
  succ_eq := ih.succ_eq
  fail_eq := ih.fail_eq
  slog_len := ih.slog_len
  flog_len := ih.flog_len
  dur_mem := ih.dur_mem
  res_env := ih.res_env
  launched_eq := ih.launched_eq
  events_eq := ih.events_eq
  init_inv := by intro i' h; exact absurd h (by simp)
  loop_ge := by
    intro _
    exact ih.loop_ge (by intro i; rw [hpc]; exact fun h => by cases h)
  postjoin_len := by intro h; exact absurd h (by simp)
  kJoin := by intro h; exact absurd h (by simp)
  kBreak := by intro _; right; show cfg.total_tasks ≤ s.task_id_counter; omega
  mzero_pc := by intro _ h; exact absurd h (by simp)
  mzero_counter := ih.mzero_counter
  done_inv := by intro h; exact absurd h (by simp)

theorem inv_breakYes {cfg : Config} {s : PoolState} (ih : Inv cfg s)
    (hpc : s.pc = .checkBreak) (hc : s.completed_tasks = cfg.total_tasks) :
    Inv cfg { s with pc := .done } where
  spawned_eq := ih.spawned_eq
  counter_le := ih.counter_le
  flight_le := ih.flight_le
  running_eq := ih.running_eq
  joined_fin := ih.joined_fin
  completed_eq := ih.completed_eq
  succ_eq := ih.succ_eq
  fail_eq := ih.fail_eq
  slog_len := ih.slog_len
  flog_len := ih.flog_len
  dur_mem := ih.dur_mem
  res_env := ih.res_env
  launched_eq := ih.launched_eq
  events_eq := ih.events_eq
  init_inv := by intro i' h; exact absurd h (by simp)
  loop_ge := by
    intro _
    exact ih.loop_ge (by intro i; rw [hpc]; exact fun h => by cases h)
  postjoin_len := by intro h; exact absurd h (by simp)
  kJoin := by intro h; exact absurd h (by simp)
  kBreak := by intro h; exact absurd h (by simp)
  mzero_pc := by intro _ h; exact absurd h (by simp)
  mzero_counter := ih.mzero_counter
  done_inv := by intro _; exact Or.inl hc

theorem inv_breakNo {cfg : Config} {s : PoolState} (ih : Inv cfg s)
    (hpc : s.pc = .checkBreak) (_hc : ¬ s.completed_tasks = cfg.total_tasks) :
    Inv cfg { s with pc := .joinWait } where
  spawned_eq := ih.spawned_eq
  counter_le := ih.counter_le
  flight_le := ih.flight_le
  running_eq := ih.running_eq
  joined_fin := ih.joined_fin
  completed_eq := ih.completed_eq
  succ_eq := ih.succ_eq
  fail_eq := ih.fail_eq
  slog_len := ih.slog_len
  flog_len := ih.flog_len
  dur_mem := ih.dur_mem
  res_env := ih.res_env
  launched_eq := ih.launched_eq
  events_eq := ih.events_eq
  init_inv := by intro i' h; exact absurd h (by simp)
  loop_ge := by
    intro _
    exact ih.loop_ge (by intro i; rw [hpc]; exact fun h => by cases h)
  postjoin_len := by intro h; exact absurd h (by simp)
  kJoin := by
    intro _
    rcases ih.kBreak hpc with hne | hge
    · exact Or.inl hne
    · exact Or.inr (Or.inl hge)
  kBreak := by intro h; exact absurd h (by simp)
  mzero_pc := by intro _ h; exact absurd h (by simp)
  mzero_counter := ih.mzero_counter
  done_inv := by intro h; exact absurd h (by simp)

theorem inv_initSpawn {cfg : Config} {s : PoolState} (ih : Inv cfg s) (i : Nat)
    (hpc : s.pc = .init i) (hi : i < poolBound cfg) :
    Inv cfg (spawnTask cfg s (.init (i + 1)) (staggerEvents (poolBound cfg) cfg.delay i)) where
  spawned_eq := by
    have h := ih.spawned_eq
    simp only [spawnTask, List.length_append, List.length_cons, List.length_nil]
    omega
  counter_le := by
    obtain ⟨hc, _, _, _⟩ := ih.init_inv i hpc
    have hmn : poolBound cfg ≤ cfg.total_tasks := Nat.min_le_right _ _
    simp only [spawnTask]
    omega
  flight_le := by
    obtain ⟨_, hlen, _, _⟩ := ih.init_inv i hpc
    simp only [spawnTask, List.length_append, List.length_cons, List.length_nil]
    omega
  running_eq := by
    have h := ih.running_eq
    simp only [spawnTask, countActive, List.countP_append, List.countP_cons, mkTask,
      TaskPhase.isActive] at h ⊢
    simpa using h
  joined_fin := ih.joined_fin
  completed_eq := by
    have h := ih.completed_eq
    simp only [spawnTask, countDone, List.countP_append, List.countP_cons, mkTask,
      TaskPhase.isDone] at h ⊢
    simpa using h
  succ_eq := by
    have h := ih.succ_eq
    simp only [spawnTask, countSuccCounted, List.countP_append, List.countP_cons, mkTask,
      TaskPhase.hasCounted] at h ⊢
    simpa using h
  fail_eq := by
    have h := ih.fail_eq
    simp only [spawnTask, countFailCounted, List.countP_append, List.countP_cons, mkTask,
      TaskPhase.hasCounted] at h ⊢
    simpa using h
  slog_len := by
    have h := ih.slog_len
    simp only [spawnTask, countSuccPushed, List.countP_append, List.countP_cons, mkTask,
      TaskPhase.hasPushed] at h ⊢
    simpa using h
  flog_len := by
    have h := ih.flog_len
    simp only [spawnTask, countFailPushed, List.countP_append, List.countP_cons, mkTask,
      TaskPhase.hasPushed] at h ⊢
    simpa using h
  dur_mem := by
    intro t ht hpu
    simp only [spawnTask, List.append_assoc, List.cons_append, List.nil_append,
      List.mem_append, List.mem_cons] at ht
    rcases ht with h1 | h2 | h3
    · exact ih.dur_mem t (List.mem_append_left _ h1) hpu
    · rw [h2] at hpu
      simp [mkTask, TaskPhase.hasPushed] at hpu
    · exact ih.dur_mem t (List.mem_append_right _ h3) hpu
  res_env := by
    intro u hu
    simp only [spawnTask, List.append_assoc, List.cons_append, List.nil_append,
      List.mem_append, List.mem_cons] at hu
    rcases hu with h1 | h2 | h3
    · exact ih.res_env u (List.mem_append_left _ h1)
    · rw [h2]
      exact ⟨rfl, rfl⟩
    · exact ih.res_env u (List.mem_append_right _ h3)
  launched_eq := by
    have h := ih.launched_eq
    simp only [spawnTask, h, List.range'_1_concat, Nat.add_comm 1 s.task_id_counter]
  events_eq := by
    obtain ⟨hc, _, _, _⟩ := ih.init_inv i hpc
    have h := ih.events_eq
    have h1 : min s.task_id_counter (poolBound cfg) = s.task_id_counter := by omega
    have h2 : min (s.task_id_counter + 1) (poolBound cfg) = s.task_id_counter + 1 := by omega
    have h3 : s.task_id_counter - poolBound cfg = 0 := by omega
    have h4 : s.task_id_counter + 1 - poolBound cfg = 0 := by omega
    rw [h1, h3] at h
    simp only [spawnTask, h2, h4, List.range'_zero, List.map_nil, List.append_nil] at h ⊢
    rw [h, hc, initPrefix_succ]
  init_inv := by
    intro i' h
    have h' : SchedPC.init (i + 1) = SchedPC.init i' := h
    injection h' with h'
    subst h'
    obtain ⟨hc, hlen, hj, _⟩ := ih.init_inv i hpc
    refine ⟨?_, ?_, hj, by omega⟩
    · simp only [spawnTask]; omega
    · simp only [spawnTask, List.length_append, List.length_cons, List.length_nil]; omega
  loop_ge := by
    intro h
    exact absurd rfl (h (i + 1))
  postjoin_len := by intro h; exact absurd h (by simp [spawnTask])
  kJoin := by intro h; exact absurd h (by simp [spawnTask])
  kBreak := by intro h; exact absurd h (by simp [spawnTask])
  mzero_pc := by intro _ h; exact absurd h (by simp [spawnTask])
  mzero_counter := by intro hm; omega
  done_inv := by intro h; exact absurd h (by simp [spawnTask])

theorem inv_replSpawn {cfg : Config} {s : PoolState} (ih : Inv cfg s)
    (hpc : s.pc = .postJoin) (hlt : s.task_id_counter < cfg.total_tasks) :
    Inv cfg (spawnTask cfg s .checkBreak []) where
  spawned_eq := by
    have h := ih.spawned_eq
    simp only [spawnTask, List.length_append, List.length_cons, List.length_nil]
    omega
  counter_le := by simp only [spawnTask]; omega
  flight_le := by
    have h := ih.postjoin_len hpc
    simp only [spawnTask, List.length_append, List.length_cons, List.length_nil]
    omega
  running_eq := by
    have h := ih.running_eq
    simp only [spawnTask, countActive, List.countP_append, List.countP_cons, mkTask,
      TaskPhase.isActive] at h ⊢
    simpa using h
  joined_fin := ih.joined_fin
  completed_eq := by
    have h := ih.completed_eq
    simp only [spawnTask, countDone, List.countP_append, List.countP_cons, mkTask,
      TaskPhase.isDone] at h ⊢
    simpa using h
  succ_eq := by
    have h := ih.succ_eq
    simp only [spawnTask, countSuccCounted, List.countP_append, List.countP_cons, mkTask,
      TaskPhase.hasCounted] at h ⊢
    simpa using h
  fail_eq := by
    have h := ih.fail_eq
    simp only [spawnTask, countFailCounted, List.countP_append, List.countP_cons, mkTask,
      TaskPhase.hasCounted] at h ⊢
    simpa using h
  slog_len := by
    have h := ih.slog_len
    simp only [spawnTask, countSuccPushed, List.countP_append, List.countP_cons, mkTask,
      TaskPhase.hasPushed] at h ⊢
    simpa using h
  flog_len := by
    have h := ih.flog_len
    simp only [spawnTask, countFailPushed, List.countP_append, List.countP_cons, mkTask,
      TaskPhase.hasPushed] at h ⊢
    simpa using h
  dur_mem := by
    intro t ht hpu
    simp only [spawnTask, List.append_assoc, List.cons_append, List.nil_append,
      List.mem_append, List.mem_cons] at ht
    rcases ht with h1 | h2 | h3
    · exact ih.dur_mem t (List.mem_append_left _ h1) hpu
    · rw [h2] at hpu
      simp [mkTask, TaskPhase.hasPushed] at hpu
    · exact ih.dur_mem t (List.mem_append_right _ h3) hpu
  res_env := by
    intro u hu
    simp only [spawnTask, List.append_assoc, List.cons_append, List.nil_append,
      List.mem_append, List.mem_cons] at hu
    rcases hu with h1 | h2 | h3
    · exact ih.res_env u (List.mem_append_left _ h1)
    · rw [h2]
      exact ⟨rfl, rfl⟩
    · exact ih.res_env u (List.mem_append_right _ h3)
  launched_eq := by
    have h := ih.launched_eq
    simp only [spawnTask, h, List.range'_1_concat, Nat.add_comm 1 s.task_id_counter]
  events_eq := by
    have hge : poolBound cfg ≤ s.task_id_counter :=
      ih.loop_ge (by intro i; rw [hpc]; exact fun h => by cases h)
    have h := ih.events_eq
    have h1 : min s.task_id_counter (poolBound cfg) = poolBound cfg := by omega
    have h2 : min (s.task_id_counter + 1) (poolBound cfg) = poolBound cfg := by omega
    have h3 : s.task_id_counter + 1 - poolBound cfg = (s.task_id_counter - poolBound cfg) + 1 := by
      omega
    have h4 : poolBound cfg + 1 + (s.task_id_counter - poolBound cfg) = s.task_id_counter + 1 := by
      omega
    rw [h1] at h
    simp only [spawnTask, h2, h3, List.range'_1_concat, h4, List.map_append, List.map_cons,
      List.map_nil, h]
    simp
  init_inv := by intro i' h; exact absurd h (by simp [spawnTask])
  loop_ge := by
    intro _
    have hge : poolBound cfg ≤ s.task_id_counter :=
      ih.loop_ge (by intro i; rw [hpc]; exact fun h => by cases h)
    simp only [spawnTask]
    omega
  postjoin_len := by intro h; exact absurd h (by simp [spawnTask])
  kJoin := by intro h; exact absurd h (by simp [spawnTask])
  kBreak := by
    intro _
    left
    simp [spawnTask]
  mzero_pc := by intro _ h; exact absurd h (by simp [spawnTask])
  mzero_counter := by
    intro hm
    exact absurd hpc (ih.mzero_pc hm)
  done_inv := by intro h; exact absurd h (by simp [spawnTask])

theorem inv_joinOne {cfg : Config} {s : PoolState} (ih : Inv cfg s)
    {l₁ l₂ : List TaskUnit} {t : TaskUnit}
    (hpc : s.pc = .joinWait) (hf : s.in_flight = l₁ ++ t :: l₂)
    (ht : t.phase = .finished) :
    Inv cfg { s with
      pc := .postJoin
      in_flight := l₁ ++ l₂
      joined_tasks := s.joined_tasks ++ [t] } where
  spawned_eq := by
    have h := ih.spawned_eq
    rw [hf] at h
    simp only [List.length_append, List.length_cons, List.length_nil] at h ⊢
    omega
  counter_le := ih.counter_le
  flight_le := by
    have h := ih.flight_le
    rw [hf] at h
    simp only [List.length_append, List.length_cons] at h ⊢
    omega
  running_eq := by
    have h := ih.running_eq
    rw [hf] at h
    simp only [countActive, List.countP_append, List.countP_cons, ht,
      TaskPhase.isActive] at h ⊢
    simpa using h
  joined_fin := by
    intro u hu
    rcases List.mem_append.mp hu with h1 | h2
    · exact ih.joined_fin u h1
    · rw [List.mem_singleton.mp h2]
      exact ht
  completed_eq := by
    have h := ih.completed_eq
    rw [hf] at h
    simp only [countDone, List.countP_append, List.countP_cons, List.countP_nil] at h ⊢
    omega
  succ_eq := by
    have h := ih.succ_eq
    rw [hf] at h
    simp only [countSuccCounted, List.countP_append, List.countP_cons, List.countP_nil] at h ⊢
    omega
  fail_eq := by
    have h := ih.fail_eq
    rw [hf] at h
    simp only [countFailCounted, List.countP_append, List.countP_cons, List.countP_nil] at h ⊢
    omega
  slog_len := by
    have h := ih.slog_len
    rw [hf] at h
    simp only [countSuccPushed, List.countP_append, List.countP_cons, List.countP_nil] at h ⊢
    omega
  flog_len := by
    have h := ih.flog_len
    rw [hf] at h
    simp only [countFailPushed, List.countP_append, List.countP_cons, List.countP_nil] at h ⊢
    omega
  dur_mem := by
    intro u hu hpu
    have hm := ih.dur_mem u ?_ hpu
    · exact hm
    · rw [hf]
      simp only [List.mem_append, List.mem_cons, List.mem_singleton] at hu ⊢
      tauto
  res_env := by
    intro u hu
    refine ih.res_env u ?_
    rw [hf]
    simp only [List.mem_append, List.mem_cons, List.mem_singleton] at hu ⊢
    tauto
  launched_eq := ih.launched_eq
  events_eq := ih.events_eq
  init_inv := by intro i' h; exact absurd h (by simp)
  loop_ge := by
    intro _
    exact ih.loop_ge (by intro i; rw [hpc]; exact fun h => by cases h)
  postjoin_len := by
    intro _
    have h := ih.flight_le
    rw [hf] at h
    simp only [List.length_append, List.length_cons] at h ⊢
    omega
  kJoin := by intro h; exact absurd h (by simp)
  kBreak := by intro h; exact absurd h (by simp)
  mzero_pc := by
    intro hm
    exfalso
    have h := ih.flight_le
    rw [hf] at h
    simp only [List.length_append, List.length_cons] at h
    omega
  mzero_counter := ih.mzero_counter
  done_inv := by intro h; exact absurd h (by simp)

theorem inv_taskStart {cfg : Config} {s : PoolState} (ih : Inv cfg s)
    {l₁ l₂ : List TaskUnit} {t : TaskUnit}
    (hf : s.in_flight = l₁ ++ t :: l₂) (hp : t.phase = .spawned) :
    Inv cfg { s with
      in_flight := l₁ ++ { t with phase := .running } :: l₂
      running_tasks := s.running_tasks + 1 } where
  spawned_eq := by
    have h := ih.spawned_eq
    rw [hf] at h
    simp only [List.length_append, List.length_cons] at h ⊢
    omega
  counter_le := ih.counter_le
  flight_le := by
    have h := ih.flight_le
    rw [hf] at h
    simp only [List.length_append, List.length_cons] at h ⊢
    omega
  running_eq := by
    have h := ih.running_eq
    rw [hf] at h
    simp [countActive, List.countP_append, List.countP_cons, hp, TaskPhase.isActive] at h ⊢
    omega
  joined_fin := ih.joined_fin
  completed_eq := by
    have h := ih.completed_eq
    rw [hf] at h
    simp [countDone, List.countP_append, List.countP_cons, hp, TaskPhase.isDone] at h ⊢
    omega
  succ_eq := by
    have h := ih.succ_eq
    rw [hf] at h
    simp [countSuccCounted, List.countP_append, List.countP_cons, hp,
      TaskPhase.hasCounted] at h ⊢
    omega
  fail_eq := by
    have h := ih.fail_eq
    rw [hf] at h
    simp [countFailCounted, List.countP_append, List.countP_cons, hp,
      TaskPhase.hasCounted] at h ⊢
    omega
  slog_len := by
    have h := ih.slog_len
    rw [hf] at h
    simp [countSuccPushed, List.countP_append, List.countP_cons, hp,
      TaskPhase.hasPushed] at h ⊢
    omega
  flog_len := by
    have h := ih.flog_len
    rw [hf] at h
    simp [countFailPushed, List.countP_append, List.countP_cons, hp,
      TaskPhase.hasPushed] at h ⊢
    omega
  dur_mem := by
    intro u hu hpu
    simp only [List.mem_append, List.mem_cons] at hu
    rcases hu with (h1 | h2 | h3) | h4
    · exact ih.dur_mem u (by rw [hf]; simp [h1]) hpu
    · rw [h2] at hpu
      simp [TaskPhase.hasPushed] at hpu
    · exact ih.dur_mem u (by rw [hf]; simp [h3]) hpu
    · exact ih.dur_mem u (List.mem_append_right _ h4) hpu
  res_env := by
    intro u hu
    simp only [List.mem_append, List.mem_cons] at hu
    rcases hu with (h1 | h2 | h3) | h4
    · exact ih.res_env u (by rw [hf]; simp [h1])
    · rw [h2]
      exact ih.res_env t (by rw [hf]; simp)
    · exact ih.res_env u (by rw [hf]; simp [h3])
    · exact ih.res_env u (List.mem_append_right _ h4)
  launched_eq := ih.launched_eq
  events_eq := ih.events_eq
  init_inv := by
    intro i h
    obtain ⟨hc, hlen, hj, hm⟩ := ih.init_inv i h
    rw [hf] at hlen
    refine ⟨hc, ?_, hj, hm⟩
    simp only [List.length_append, List.length_cons] at hlen ⊢
    omega
  loop_ge := ih.loop_ge
  postjoin_len := by
    intro h
    have hl := ih.postjoin_len h
    rw [hf] at hl
    simp only [List.length_append, List.length_cons] at hl ⊢
    omega
  kJoin := fun _ => Or.inl (by simp)
  kBreak := fun _ => Or.inl (by simp)
  mzero_pc := ih.mzero_pc
  mzero_counter := ih.mzero_counter
  done_inv := ih.done_inv

theorem inv_taskCount {cfg : Config} {s : PoolState} (ih : Inv cfg s)
    {l₁ l₂ : List TaskUnit} {t : TaskUnit}
    (hf : s.in_flight = l₁ ++ t :: l₂) (hp : t.phase = .running) :
    Inv cfg { s with
      in_flight := l₁ ++ { t with phase := .counted } :: l₂
      successful_tasks :=
        if recordSuccess t.res then s.successful_tasks + 1 else s.successful_tasks
      failed_tasks :=
        if recordSuccess t.res then s.failed_tasks else s.failed_tasks + 1 } where
  spawned_eq := by
    have h := ih.spawned_eq
    rw [hf] at h
    simp only [List.length_append, List.length_cons] at h ⊢
    omega
  counter_le := ih.counter_le
  flight_le := by
    have h := ih.flight_le
    rw [hf] at h
    simp only [List.length_append, List.length_cons] at h ⊢
    omega
  running_eq := by
    have h := ih.running_eq
    rw [hf] at h
    simp [countActive, List.countP_append, List.countP_cons, hp, TaskPhase.isActive] at h ⊢
    omega
  joined_fin := ih.joined_fin
  completed_eq := by
    have h := ih.completed_eq
    rw [hf] at h
    simp [countDone, List.countP_append, List.countP_cons, hp, TaskPhase.isDone] at h ⊢
    omega
  succ_eq := by
    have h := ih.succ_eq
    rw [hf] at h
    cases hr : recordSuccess t.res <;>
      simp [countSuccCounted, List.countP_append, List.countP_cons, hp, hr,
        TaskPhase.hasCounted] at h ⊢ <;>
      omega
  fail_eq := by
    have h := ih.fail_eq
    rw [hf] at h
    cases hr : recordSuccess t.res <;>
      simp [countFailCounted, List.countP_append, List.countP_cons, hp, hr,
        TaskPhase.hasCounted] at h ⊢ <;>
      omega
  slog_len := by
    have h := ih.slog_len
    rw [hf] at h
    simp [countSuccPushed, List.countP_append, List.countP_cons, hp,
      TaskPhase.hasPushed] at h ⊢
    omega
  flog_len := by
    have h := ih.flog_len
    rw [hf] at h
    simp [countFailPushed, List.countP_append, List.countP_cons, hp,
      TaskPhase.hasPushed] at h ⊢
    omega
  dur_mem := by
    intro u hu hpu
    simp only [List.mem_append, List.mem_cons] at hu
    rcases hu with (h1 | h2 | h3) | h4
    · exact ih.dur_mem u (by rw [hf]; simp [h1]) hpu
    · rw [h2] at hpu
      simp [TaskPhase.hasPushed] at hpu
    · exact ih.dur_mem u (by rw [hf]; simp [h3]) hpu
    · exact ih.dur_mem u (List.mem_append_right _ h4) hpu
  res_env := by
    intro u hu
    simp only [List.mem_append, List.mem_cons] at hu
    rcases hu with (h1 | h2 | h3) | h4
    · exact ih.res_env u (by rw [hf]; simp [h1])
    · rw [h2]
      exact ih.res_env t (by rw [hf]; simp)
    · exact ih.res_env u (by rw [hf]; simp [h3])
    · exact ih.res_env u (List.mem_append_right _ h4)
  launched_eq := ih.launched_eq
  events_eq := ih.events_eq
  init_inv := by
    intro i h
    obtain ⟨hc, hlen, hj, hm⟩ := ih.init_inv i h
    rw [hf] at hlen
    refine ⟨hc, ?_, hj, hm⟩
    simp only [List.length_append, List.length_cons] at hlen ⊢
    omega
  loop_ge := ih.loop_ge
  postjoin_len := by
    intro h
    have hl := ih.postjoin_len h
    rw [hf] at hl
    simp only [List.length_append, List.length_cons] at hl ⊢
    omega
  kJoin := fun _ => Or.inl (by simp)
  kBreak := fun _ => Or.inl (by simp)
  mzero_pc := ih.mzero_pc
  mzero_counter := ih.mzero_counter
  done_inv := ih.done_inv

theorem inv_taskPush {cfg : Config} {s : PoolState} (ih : Inv cfg s)
    {l₁ l₂ : List TaskUnit} {t : TaskUnit}
    (hf : s.in_flight = l₁ ++ t :: l₂) (hp : t.phase = .counted) :
    Inv cfg { s with
      in_flight := l₁ ++ { t with phase := .pushed } :: l₂
      successful_durations :=
        if recordSuccess t.res then s.successful_durations ++ [t.dur]
        else s.successful_durations
      failed_durations :=
        if recordSuccess t.res then s.failed_durations
        else s.failed_durations ++ [t.dur] } where
  spawned_eq := by
    have h := ih.spawned_eq
    rw [hf] at h
    simp only [List.length_append, List.length_cons] at h ⊢
    omega
  counter_le := ih.counter_le
  flight_le := by
    have h := ih.flight_le
    rw [hf] at h
    simp only [List.length_append, List.length_cons] at h ⊢
    omega
  running_eq := by
    have h := ih.running_eq
    rw [hf] at h
    simp [countActive, List.countP_append, List.countP_cons, hp, TaskPhase.isActive] at h ⊢
    omega
  joined_fin := ih.joined_fin
  completed_eq := by
    have h := ih.completed_eq
    rw [hf] at h
    simp [countDone, List.countP_append, List.countP_cons, hp, TaskPhase.isDone] at h ⊢
    omega
  succ_eq := by
    have h := ih.succ_eq
    rw [hf] at h
    simp [countSuccCounted, List.countP_append, List.countP_cons, hp,
      TaskPhase.hasCounted] at h ⊢
    omega
  fail_eq := by
    have h := ih.fail_eq
    rw [hf] at h
    simp [countFailCounted, List.countP_append, List.countP_cons, hp,
      TaskPhase.hasCounted] at h ⊢
    omega
  slog_len := by
    have h := ih.slog_len
    rw [hf] at h
    cases hr : recordSuccess t.res <;>
      simp [countSuccPushed, List.countP_append, List.countP_cons, hp, hr,
        TaskPhase.hasPushed] at h ⊢ <;>
      omega
  flog_len := by
    have h := ih.flog_len
    rw [hf] at h
    cases hr : recordSuccess t.res <;>
      simp [countFailPushed, List.countP_append, List.countP_cons, hp, hr,
        TaskPhase.hasPushed] at h ⊢ <;>
      omega
  dur_mem := by
    intro u hu hpu
    simp only [List.mem_append, List.mem_cons] at hu
    have lift : ∀ v : TaskUnit,
        (recordSuccess v.res = true → v.dur ∈ s.successful_durations) ∧
        (recordSuccess v.res = false → v.dur ∈ s.failed_durations) →
        (recordSuccess v.res = true →
          v.dur ∈ if recordSuccess t.res then s.successful_durations ++ [t.dur]
            else s.successful_durations) ∧
        (recordSuccess v.res = false →
          v.dur ∈ if recordSuccess t.res then s.failed_durations
            else s.failed_durations ++ [t.dur]) := by
      intro v hv
      constructor
      · intro hrv
        have := hv.1 hrv
        split
        · exact List.mem_append_left _ this
        · exact this
      · intro hrv
        have := hv.2 hrv
        split
        · exact this
        · exact List.mem_append_left _ this
    rcases hu with (h1 | h2 | h3) | h4
    · exact lift u (ih.dur_mem u (by rw [hf]; simp [h1]) hpu)
    · rw [h2]
      cases hr : recordSuccess t.res <;> simp [hr]
    · exact lift u (ih.dur_mem u (by rw [hf]; simp [h3]) hpu)
    · exact lift u (ih.dur_mem u (List.mem_append_right _ h4) hpu)
  res_env := by
    intro u hu
    simp only [List.mem_append, List.mem_cons] at hu
    rcases hu with (h1 | h2 | h3) | h4
    · exact ih.res_env u (by rw [hf]; simp [h1])
    · rw [h2]
      exact ih.res_env t (by rw [hf]; simp)
    · exact ih.res_env u (by rw [hf]; simp [h3])
    · exact ih.res_env u (List.mem_append_right _ h4)
  launched_eq := ih.launched_eq
  events_eq := ih.events_eq
  init_inv := by
    intro i h
    obtain ⟨hc, hlen, hj, hm⟩ := ih.init_inv i h
    rw [hf] at hlen
    refine ⟨hc, ?_, hj, hm⟩
    simp only [List.length_append, List.length_cons] at hlen ⊢
    omega
  loop_ge := ih.loop_ge
  postjoin_len := by
    intro h
    have hl := ih.postjoin_len h
    rw [hf] at hl
    simp only [List.length_append, List.length_cons] at hl ⊢
    omega
  kJoin := fun _ => Or.inl (by simp)
  kBreak := fun _ => Or.inl (by simp)
  mzero_pc := ih.mzero_pc
  mzero_counter := ih.mzero_counter
  done_inv := ih.done_inv

theorem inv_taskComplete {cfg : Config} {s : PoolState} (ih : Inv cfg s)
    {l₁ l₂ : List TaskUnit} {t : TaskUnit}
    (hf : s.in_flight = l₁ ++ t :: l₂) (hp : t.phase = .pushed) :
    Inv cfg { s with
      in_flight := l₁ ++ { t with phase := .completedInc } :: l₂
      completed_tasks := s.completed_tasks + 1 } where
  spawned_eq := by
    have h := ih.spawned_eq
    rw [hf] at h
    simp only [List.length_append, List.length_cons] at h ⊢
    omega
  counter_le := ih.counter_le
  flight_le := by
    have h := ih.flight_le
    rw [hf] at h
    simp only [List.length_append, List.length_cons] at h ⊢
    omega
  running_eq := by
    have h := ih.running_eq
    rw [hf] at h
    simp [countActive, List.countP_append, List.countP_cons, hp, TaskPhase.isActive] at h ⊢
    omega
  joined_fin := ih.joined_fin
  completed_eq := by
    have h := ih.completed_eq
    rw [hf] at h
    simp [countDone, List.countP_append, List.countP_cons, hp, TaskPhase.isDone] at h ⊢
    omega
  succ_eq := by
    have h := ih.succ_eq
    rw [hf] at h
    simp [countSuccCounted, List.countP_append, List.countP_cons, hp,
      TaskPhase.hasCounted] at h ⊢
    omega
  fail_eq := by
    have h := ih.fail_eq
    rw [hf] at h
    simp [countFailCounted, List.countP_append, List.countP_cons, hp,
      TaskPhase.hasCounted] at h ⊢
    omega
  slog_len := by
    have h := ih.slog_len
    rw [hf] at h
    simp [countSuccPushed, List.countP_append, List.countP_cons, hp,
      TaskPhase.hasPushed] at h ⊢
    omega
  flog_len := by
    have h := ih.flog_len
    rw [hf] at h
    simp [countFailPushed, List.countP_append, List.countP_cons, hp,
      TaskPhase.hasPushed] at h ⊢
    omega
  dur_mem := by
    intro u hu hpu
    simp only [List.mem_append, List.mem_cons] at hu
    rcases hu with (h1 | h2 | h3) | h4
    · exact ih.dur_mem u (by rw [hf]; simp [h1]) hpu
    · rw [h2]
      have := ih.dur_mem t (by rw [hf]; simp) (by rw [hp]; rfl)
      simpa using this
    · exact ih.dur_mem u (by rw [hf]; simp [h3]) hpu
    · exact ih.dur_mem u (List.mem_append_right _ h4) hpu
  res_env := by
    intro u hu
    simp only [List.mem_append, List.mem_cons] at hu
    rcases hu with (h1 | h2 | h3) | h4
    · exact ih.res_env u (by rw [hf]; simp [h1])
    · rw [h2]
      exact ih.res_env t (by rw [hf]; simp)
    · exact ih.res_env u (by rw [hf]; simp [h3])
    · exact ih.res_env u (List.mem_append_right _ h4)
  launched_eq := ih.launched_eq
  events_eq := ih.events_eq
  init_inv := by
    intro i h
    obtain ⟨hc, hlen, hj, hm⟩ := ih.init_inv i h
    rw [hf] at hlen
    refine ⟨hc, ?_, hj, hm⟩
    simp only [List.length_append, List.length_cons] at hlen ⊢
    omega
  loop_ge := ih.loop_ge
  postjoin_len := by
    intro h
    have hl := ih.postjoin_len h
    rw [hf] at hl
    simp only [List.length_append, List.length_cons] at hl ⊢
    omega
  kJoin := fun _ => Or.inl (by simp)
  kBreak := fun _ => Or.inl (by simp)
  mzero_pc := ih.mzero_pc
  mzero_counter := ih.mzero_counter
  done_inv := by
    intro hd
    exfalso
    rcases ih.done_inv hd with hcn | hc0
    · have hcd := ih.completed_eq
      rw [hf] at hcd
      have hsp := ih.spawned_eq
      rw [hf] at hsp
      have hcle := ih.counter_le
      have b1 : countDone l₁ ≤ l₁.length := List.countP_le_length _
      have b2 : countDone l₂ ≤ l₂.length := List.countP_le_length _
      have b3 : countDone s.joined_tasks ≤ s.joined_tasks.length := List.countP_le_length _
      simp only [countDone, List.countP_append, List.countP_cons, hp,
        TaskPhase.isDone] at hcd b1 b2 b3
      simp only [List.length_append, List.length_cons] at hsp
      simp at hcd
      omega
    · have hm0 : poolBound cfg = 0 := by
        rw [poolBound, hc0]
        simp
      have hc := ih.mzero_counter hm0
      have hsp := ih.spawned_eq
      rw [hf] at hsp
      simp only [List.length_append, List.length_cons] at hsp
      omega

theorem inv_taskFinish {cfg : Config} {s : PoolState} (ih : Inv cfg s)
    {l₁ l₂ : List TaskUnit} {t : TaskUnit}
    (hf : s.in_flight = l₁ ++ t :: l₂) (hp : t.phase = .completedInc) :
    Inv cfg { s with
      in_flight := l₁ ++ { t with phase := .finished } :: l₂
      running_tasks := s.running_tasks - 1 } where
  spawned_eq := by
    have h := ih.spawned_eq
    rw [hf] at h
    simp only [List.length_append, List.length_cons] at h ⊢
    omega
  counter_le := ih.counter_le
  flight_le := by
    have h := ih.flight_le
    rw [hf] at h
    simp only [List.length_append, List.length_cons] at h ⊢
    omega
  running_eq := by
    have h := ih.running_eq
    rw [hf] at h
    simp [countActive, List.countP_append, List.countP_cons, hp, TaskPhase.isActive] at h ⊢
    omega
  joined_fin := ih.joined_fin
  completed_eq := by
    have h := ih.completed_eq
    rw [hf] at h
    simp [countDone, List.countP_append, List.countP_cons, hp, TaskPhase.isDone] at h ⊢
    omega
  succ_eq := by
    have h := ih.succ_eq
    rw [hf] at h
    simp [countSuccCounted, List.countP_append, List.countP_cons, hp,
      TaskPhase.hasCounted] at h ⊢
    omega
  fail_eq := by
    have h := ih.fail_eq
    rw [hf] at h
    simp [countFailCounted, List.countP_append, List.countP_cons, hp,
      TaskPhase.hasCounted] at h ⊢
    omega
  slog_len := by
    have h := ih.slog_len
    rw [hf] at h
    simp [countSuccPushed, List.countP_append, List.countP_cons, hp,
      TaskPhase.hasPushed] at h ⊢
    omega
  flog_len := by
    have h := ih.flog_len
    rw [hf] at h
    simp [countFailPushed, List.countP_append, List.countP_cons, hp,
      TaskPhase.hasPushed] at h ⊢
    omega
  dur_mem := by
    intro u hu hpu
    simp only [List.mem_append, List.mem_cons] at hu
    rcases hu with (h1 | h2 | h3) | h4
    · exact ih.dur_mem u (by rw [hf]; simp [h1]) hpu
    · rw [h2]
      have := ih.dur_mem t (by rw [hf]; simp) (by rw [hp]; rfl)
      simpa using this
    · exact ih.dur_mem u (by rw [hf]; simp [h3]) hpu
    · exact ih.dur_mem u (List.mem_append_right _ h4) hpu
  res_env := by
    intro u hu
    simp only [List.mem_append, List.mem_cons] at hu
    rcases hu with (h1 | h2 | h3) | h4
    · exact ih.res_env u (by rw [hf]; simp [h1])
    · rw [h2]
      exact ih.res_env t (by rw [hf]; simp)
    · exact ih.res_env u (by rw [hf]; simp [h3])
    · exact ih.res_env u (List.mem_append_right _ h4)
  launched_eq := ih.launched_eq
  events_eq := ih.events_eq
  init_inv := by
    intro i h
    obtain ⟨hc, hlen, hj, hm⟩ := ih.init_inv i h
    rw [hf] at hlen
    refine ⟨hc, ?_, hj, hm⟩
    simp only [List.length_append, List.length_cons] at hlen ⊢
    omega
  loop_ge := ih.loop_ge
  postjoin_len := by
    intro h
    have hl := ih.postjoin_len h
    rw [hf] at hl
    simp only [List.length_append, List.length_cons] at hl ⊢
    omega
  kJoin := fun _ => Or.inl (by simp)
  kBreak := fun _ => Or.inl (by simp)
  mzero_pc := ih.mzero_pc
  mzero_counter := ih.mzero_counter
  done_inv := ih.done_inv

theorem inv_step {cfg : Config} {s s' : PoolState} (ih : Inv cfg s)
    (hst : Step cfg s s') : Inv cfg s' := by
  cases hst with
  | initSpawn i hpc hi => exact inv_initSpawn ih i hpc hi
  | initDone i hpc hi => exact inv_initDone ih i hpc hi
  | joinNone hpc hempty => exact inv_joinNone ih hpc hempty
  | joinOne l₁ l₂ t hpc hf ht => exact inv_joinOne ih hpc hf ht
  | replSpawn hpc hlt => exact inv_replSpawn ih hpc hlt
  | replSkip hpc hge => exact inv_replSkip ih hpc hge
  | breakYes hpc hc => exact inv_breakYes ih hpc hc
  | breakNo hpc hc => exact inv_breakNo ih hpc hc
  | taskStart l₁ l₂ t hf hp => exact inv_taskStart ih hf hp
  | taskCount l₁ l₂ t hf hp => exact inv_taskCount ih hf hp
  | taskPush l₁ l₂ t hf hp => exact inv_taskPush ih hf hp
  | taskComplete l₁ l₂ t hf hp => exact inv_taskComplete ih hf hp
  | taskFinish l₁ l₂ t hf hp => exact inv_taskFinish ih hf hp

theorem inv_reachable {cfg : Config} {s : PoolState} (h : Reachable cfg s) :
    Inv cfg s := by
  induction h with
  | refl => exact inv_initState cfg
  | tail _ hst ihr => exact inv_step ihr hst

theorem foldl_min_le_init : ∀ (l : List Nat) (a : Nat), l.foldl min a ≤ a := by
  intro l
  induction l with
  | nil => intro a; exact Nat.le_refl a
  | cons d ds ihl =>
    intro a
    calc (d :: ds).foldl min a = ds.foldl min (min a d) := rfl
    _ ≤ min a d := ihl (min a d)
    _ ≤ a := Nat.min_le_left _ _

theorem foldl_min_le_mem : ∀ (l : List Nat) (a x : Nat), x ∈ a :: l → l.foldl min a ≤ x := by
  intro l
  induction l with
  | nil =>
    intro a x hx
    rw [List.mem_singleton.mp hx]
    exact Nat.le_refl a
  | cons d ds ihl =>
    intro a x hx
    rcases List.mem_cons.mp hx with h1 | h2
    · subst h1
      calc ds.foldl min (min x d) ≤ min x d := foldl_min_le_init _ _
      _ ≤ x := Nat.min_le_left _ _
    · rcases List.mem_cons.mp h2 with h3 | h4
      · subst h3
        calc ds.foldl min (min a x) ≤ min a x := foldl_min_le_init _ _
        _ ≤ x := Nat.min_le_right _ _
      · exact ihl (min a d) x (List.mem_cons_of_mem _ h4)

theorem le_foldl_max_init : ∀ (l : List Nat) (a : Nat), a ≤ l.foldl max a := by
  intro l
  induction l with
  | nil => intro a; exact Nat.le_refl a
  | cons d ds ihl =>
    intro a
    calc a ≤ max a d := Nat.le_max_left _ _
    _ ≤ ds.foldl max (max a d) := ihl (max a d)

theorem le_foldl_max_mem : ∀ (l : List Nat) (a x : Nat), x ∈ a :: l → x ≤ l.foldl max a := by
  intro l
  induction l with
  | nil =>
    intro a x hx
    rw [List.mem_singleton.mp hx]
    exact Nat.le_refl a
  | cons d ds ihl =>
    intro a x hx
    rcases List.mem_cons.mp hx with h1 | h2
    · subst h1
      calc x ≤ max x d := Nat.le_max_left _ _
      _ ≤ ds.foldl max (max x d) := le_foldl_max_init _ _
    · rcases List.mem_cons.mp h2 with h3 | h4
      · subst h3
        calc x ≤ max a x := Nat.le_max_right _ _
        _ ≤ ds.foldl max (max a x) := le_foldl_max_init _ _
      · exact ihl (max a d) x (List.mem_cons_of_mem _ h4)

theorem length_mul_le_sum (l : List Nat) (a : Nat) (h : ∀ x ∈ l, a ≤ x) :
    l.length * a ≤ l.sum := by
  induction l with
  | nil => simp
  | cons b bs ihl =>
    have hb := h b (by simp)
    have hr := ihl (fun x hx => h x (List.mem_cons_of_mem _ hx))
    simp only [List.length_cons, List.sum_cons, Nat.succ_mul]
    omega

theorem sum_le_length_mul (l : List Nat) (b : Nat) (h : ∀ x ∈ l, x ≤ b) :
    l.sum ≤ l.length * b := by
  induction l with
  | nil => simp
  | cons c cs ihl =>
    have hc := h c (by simp)
    have hr := ihl (fun x hx => h x (List.mem_cons_of_mem _ hx))
    simp only [List.length_cons, List.sum_cons, Nat.succ_mul]
    omega

theorem statsOf_spec (l : List Nat) :
    (statsOf l = none ↔ l = []) ∧
    ∀ ds, statsOf l = some ds →
      ds.avg = l.sum / lenU32 l ∧
      (l.length < 2 ^ 32 →
        ds.avg = l.sum / l.length ∧ ds.minD ≤ ds.avg ∧ ds.avg ≤ ds.maxD) := by
  cases l with
  | nil => simp [statsOf]
  | cons c cs =>
    constructor
    · simp [statsOf]
    · intro ds hds
      simp only [statsOf, List.isEmpty_cons, Bool.false_eq_true, if_false,
        Option.some.injEq] at hds
      rw [← hds]
      refine ⟨rfl, ?_⟩
      intro hlt
      have hlen : lenU32 (c :: cs) = (c :: cs).length := Nat.mod_eq_of_lt hlt
      refine ⟨by rw [hlen], ?_, ?_⟩
      · show (c :: cs).min?.getD 0 ≤ (c :: cs).sum / lenU32 (c :: cs)
        rw [hlen, List.min?_cons']
        simp only [Option.getD_some]
        have hb : (c :: cs).length * (cs.foldl min c) ≤ (c :: cs).sum :=
          length_mul_le_sum _ _ (foldl_min_le_mem cs c)
        refine (Nat.le_div_iff_mul_le (by simp)).mpr ?_
        rw [Nat.mul_comm]
        exact hb
      · show (c :: cs).sum / lenU32 (c :: cs) ≤ (c :: cs).max?.getD 0
        rw [hlen, List.max?_cons']
        simp only [Option.getD_some]
        have hb : (c :: cs).sum ≤ (c :: cs).length * (cs.foldl max c) :=
          sum_le_length_mul _ _ (le_foldl_max_mem cs c)
        exact Nat.div_le_of_le_mul hb

/-- Claim C4: for every task execution, if the spawn primitive returns a
process result then exit code 0 is classified as a success and a nonzero
(or indeterminable) exit as a failure, both carrying the exit code with
default 0 when none is determinable; if the spawn primitive itself fails
the task is a failure carrying the error message with empty captured
stdout and stderr; and the classification is total: every result is
counted, as a failure exactly when it is not recorded as a success. -/
theorem C4_classification_total (r : SpawnResult) :
    (∀ o, r = .ok o → o.code = some 0 →
      classifyOutcome r = (.success 0, o.stdout, o.stderr)) ∧
    (∀ o, r = .ok o → o.code ≠ some 0 →
      classifyOutcome r = (.exitFailure (o.code.getD 0), o.stdout, o.stderr)) ∧
    (∀ e, r = .err e → classifyOutcome r = (.spawnError e, "", "")) ∧
    countsAsFailure (classifyOutcome r).1 = !recordSuccess r := by
  refine ⟨?_, ?_, ?_, ?_⟩
  · intro o ho hc
    subst ho
    simp [classifyOutcome, hc]
  · intro o ho hc
    subst ho
    simp [classifyOutcome, hc]
  · intro e he
    subst he
    rfl
  · cases r with
    | ok o =>
      by_cases hc : o.code = some 0 <;>
        simp [classifyOutcome, recordSuccess, countsAsFailure, hc]
    | err e => rfl

theorem C4_witness :
    classifyOutcome (.ok ⟨some 0, "out", "err"⟩) =
      (.success 0, "out", "err") :=
  (C4_classification_total (.ok ⟨some 0, "out", "err"⟩)).1 ⟨some 0, "out", "err"⟩ rfl rfl

/-- Claim C5: an invocation with an empty command token list fails
immediately with exit code 1 (non-zero) before the scheduler runs: the
startup check rejects the command list, and the only behaviour of `main`
is the startup error, which launches no task and prints no summary. -/
theorem C5_empty_command (a : Args) (env : Nat → SpawnResult) (durOf : Nat → Nat)
    (h : a.command = []) :
    checkCommand a.command = none ∧ runExitCode a = 1 ∧ runExitCode a ≠ 0 ∧
    (∀ o, MainBehavior a env durOf o → o = .startupError 1) ∧
    MainBehavior a env durOf (.startupError 1) := by
  refine ⟨by rw [h]; rfl, by simp [runExitCode, h], by simp [runExitCode, h], ?_,
    .emptyCommand h⟩
  intro o ho
  cases ho with
  | emptyCommand _ => rfl
  | run cmd rest s hcmd _ _ _ _ =>
    rw [h] at hcmd
    cases hcmd
  | panicStats cmd rest s hcmd _ _ _ =>
    rw [h] at hcmd
    cases hcmd

/-- Concrete arguments with an empty command list. -/
def w5Args : Args := ⟨1, 3, false, 100, []⟩

theorem C5_witness :
    checkCommand w5Args.command = none ∧ runExitCode w5Args = 1 ∧ runExitCode w5Args ≠ 0 ∧
    (∀ o, MainBehavior w5Args (fun _ => .err "e") (fun _ => 0) o → o = .startupError 1) ∧
    MainBehavior w5Args (fun _ => .err "e") (fun _ => 0) (.startupError 1) :=
  C5_empty_command w5Args (fun _ => .err "e") (fun _ => 0) rfl

/-- Claim C7 (amended): for each outcome class, the final report
contains duration statistics exactly when that class's duration log is
non-empty; the reported average is the duration sum divided by the log
length truncated `as u32` (`main.rs` 268/281), and whenever the log has
fewer than 2^32 entries this equals the sum of the logged durations
divided by their count and lies between the reported minimum and
maximum.  For larger logs the truncated divisor changes the average
(see `C7_counterexample`), and a non-empty log whose length is a
multiple of 2^32 panics before any report (see `statsPanic` and
`MainBehavior`). -/
theorem C7_duration_stats (cfg : Config) (s : PoolState) :
    ((mkReport cfg s).successStats = none ↔ s.successful_durations = []) ∧
    ((mkReport cfg s).failedStats = none ↔ s.failed_durations = []) ∧
    (∀ ds, (mkReport cfg s).successStats = some ds →
      ds.avg = s.successful_durations.sum / lenU32 s.successful_durations ∧
      (s.successful_durations.length < 2 ^ 32 →
        ds.avg = s.successful_durations.sum / s.successful_durations.length ∧
        ds.minD ≤ ds.avg ∧ ds.avg ≤ ds.maxD)) ∧
    (∀ ds, (mkReport cfg s).failedStats = some ds →
      ds.avg = s.failed_durations.sum / lenU32 s.failed_durations ∧
      (s.failed_durations.length < 2 ^ 32 →
        ds.avg = s.failed_durations.sum / s.failed_durations.length ∧
        ds.minD ≤ ds.avg ∧ ds.avg ≤ ds.maxD)) :=
  ⟨(statsOf_spec s.successful_durations).1, (statsOf_spec s.failed_durations).1,
    (statsOf_spec s.successful_durations).2, (statsOf_spec s.failed_durations).2⟩

/-- A state whose duration logs are concrete, for evaluating `C7`. -/
def w7State : PoolState :=
  { initState with successful_durations := [3, 5], failed_durations := [7] }

/-- A small concrete configuration. -/
def w7Config : Config := ⟨2, 1, 0, fun _ => .err "x", fun _ => 0⟩

theorem C7_witness :
    (mkReport w7Config w7State).successStats = some ⟨4, 3, 5⟩ ∧
    w7State.successful_durations.length < 2 ^ 32 ∧
    (DurationStats.avg ⟨4, 3, 5⟩ =
        w7State.successful_durations.sum / w7State.successful_durations.length ∧
      DurationStats.minD ⟨4, 3, 5⟩ ≤ DurationStats.avg ⟨4, 3, 5⟩ ∧
      DurationStats.avg ⟨4, 3, 5⟩ ≤ DurationStats.maxD ⟨4, 3, 5⟩) :=
  ⟨rfl, by decide,
    ((C7_duration_stats w7Config w7State).2.2.1 ⟨4, 3, 5⟩ rfl).2 (by decide)⟩

/-- Claim C2: at every instant of a run, `running_tasks` equals the
number of in-flight task units between their increment and decrement,
and neither it nor the number of spawned-but-not-joined tasks ever
exceeds `min(concurrency, total_tasks)`. -/
theorem C2_running_bound (cfg : Config) (s : PoolState) (h : Reachable cfg s) :
    s.running_tasks = countActive s.in_flight ∧
    s.running_tasks ≤ poolBound cfg ∧
    s.in_flight.length ≤ poolBound cfg := by
  have ih := inv_reachable h
  have hle : countActive s.in_flight ≤ s.in_flight.length := List.countP_le_length _
  have h1 := ih.running_eq
  have h2 := ih.flight_le
  exact ⟨h1, by omega, h2⟩

/-- A concrete configuration: 3 tasks at concurrency 2. -/
def w2Config : Config := ⟨3, 2, 0, fun _ => .ok ⟨some 0, "", ""⟩, fun _ => 1⟩

theorem C2_witness :
    initState.running_tasks = countActive initState.in_flight ∧
    initState.running_tasks ≤ poolBound w2Config ∧
    initState.in_flight.length ≤ poolBound w2Config :=
  C2_running_bound w2Config initState Relation.ReflTransGen.refl

/-- Claim C3: with concurrency at least 1, at most `total_tasks` ids are
ever assigned, the launch log is always exactly `1, 2, …,
task_id_counter` in launch order (each id once, strictly increasing),
and when the scheduler loop has exited, exactly `total_tasks` tasks were
launched and exactly `total_tasks` have completed — the loop never exits
earlier. -/
theorem C3_launch_ids (cfg : Config) (s : PoolState) (hc : 1 ≤ cfg.concurrency)
    (h : Reachable cfg s) :
    s.task_id_counter ≤ cfg.total_tasks ∧
    s.launched_ids = List.range' 1 s.task_id_counter ∧
    (s.pc = .done →
      s.task_id_counter = cfg.total_tasks ∧
      s.completed_tasks = cfg.total_tasks ∧
      s.launched_ids = List.range' 1 cfg.total_tasks) := by
  have ih := inv_reachable h
  refine ⟨ih.counter_le, ih.launched_eq, ?_⟩
  intro hd
  rcases ih.done_inv hd with hcn | hc0
  · have hcd := ih.completed_eq
    have hsp := ih.spawned_eq
    have hcle := ih.counter_le
    have hb : countDone (s.in_flight ++ s.joined_tasks) ≤
        (s.in_flight ++ s.joined_tasks).length := List.countP_le_length _
    simp only [List.length_append] at hb
    have hcnt : s.task_id_counter = cfg.total_tasks := by omega
    exact ⟨hcnt, hcn, by rw [ih.launched_eq, hcnt]⟩
  · omega

/-- A concrete configuration with concurrency 1 and no tasks. -/
def w3Config : Config := ⟨0, 1, 0, fun _ => .err "e", fun _ => 0⟩

theorem C3_witness :
    initState.task_id_counter ≤ w3Config.total_tasks ∧
    initState.launched_ids = List.range' 1 initState.task_id_counter ∧
    (initState.pc = .done →
      initState.task_id_counter = w3Config.total_tasks ∧
      initState.completed_tasks = w3Config.total_tasks ∧
      initState.launched_ids = List.range' 1 w3Config.total_tasks) :=
  C3_launch_ids w3Config initState (Nat.le_refl 1) Relation.ReflTransGen.refl

/-- The configuration of the atomicity counterexample: one task, run at
concurrency 1 with no stagger delay, whose command exits 0 after 5ns. -/
def cexConfig : Config := ⟨1, 1, 0, fun _ => .ok ⟨some 0, "", ""⟩, fun _ => 5⟩

/-- Task 1 of the counterexample run, at a given phase. -/
def cexTask (p : TaskPhase) : TaskUnit := ⟨1, .ok ⟨some 0, "", ""⟩, 5, p⟩

/-- The state of the counterexample run just after task 1 executed
`successful_tasks.fetch_add(1)` (`main.rs` line 107) but before its
duration push (line 108) and before `completed_tasks.fetch_add(1)`
(line 131): the scheduler sits at `join_next`. -/
def cexState : PoolState where
  pc := .joinWait
  task_id_counter := 1
  completed_tasks := 0
  successful_tasks := 1
  failed_tasks := 0
  running_tasks := 1
  successful_durations := []
  failed_durations := []
  in_flight := [cexTask .counted]
  joined_tasks := []
  launched_ids := [1]
  events := [.launch 1]

/-- Claim C1 counterexample: the three effects of a record are *not* one
indivisible step.  The run of `cexConfig` reaches an observable state in
which `successful_tasks + failed_tasks ≠ completed_tasks` and
`successful_tasks` differs from the length of the successful-duration
log, because the outcome counter, the duration push and the completed
counter are three separate atomic operations. -/
theorem C1_counterexample :
    Reachable cexConfig cexState ∧
    cexState.successful_tasks + cexState.failed_tasks ≠ cexState.completed_tasks ∧
    cexState.successful_tasks ≠ cexState.successful_durations.length := by
  refine ⟨?_, by decide, by decide⟩
  have h0 : Reachable cexConfig initState := Relation.ReflTransGen.refl
  have h1 := Relation.ReflTransGen.tail h0 (Step.initSpawn initState 0 rfl (by decide))
  have h2 := Relation.ReflTransGen.tail h1 (Step.initDone _ 1 rfl (by decide))
  have h3 := Relation.ReflTransGen.tail h2
    (Step.taskStart _ [] [] (cexTask .spawned) rfl rfl)
  have h4 := Relation.ReflTransGen.tail h3
    (Step.taskCount _ [] [] (cexTask .running) rfl rfl)
  exact h4

/-- For a phase that is not mid-record, having counted, having pushed
and being completed coincide. -/
theorem nomid_phase_eq (p : TaskPhase) (hp : p.midRecord = false) :
    (p.hasCounted = p.hasPushed) ∧ (p.hasCounted = p.isDone) := by
  cases p <;> revert hp <;> decide

/-- A completed phase is not mid-record. -/
theorem isDone_not_mid (p : TaskPhase) (hp : p.isDone = true) : p.midRecord = false := by
  cases p <;> revert hp <;> decide

theorem countSucc_add_countFail (l : List TaskUnit) :
    countSuccCounted l + countFailCounted l = l.countP (fun t => t.phase.hasCounted) := by
  simp only [countSuccCounted, countFailCounted]
  exact countP_split _ _ l

/-- The record equalities hold at any state whose tasks are all outside
the mid-record window. -/
theorem record_eqs_of_nomid {cfg : Config} {s : PoolState} (ih : Inv cfg s)
    (hm : ∀ t ∈ s.in_flight ++ s.joined_tasks, t.phase.midRecord = false) :
    s.successful_tasks + s.failed_tasks = s.completed_tasks ∧
    s.successful_tasks = s.successful_durations.length ∧
    s.failed_tasks = s.failed_durations.length := by
  have e1 : countSuccCounted (s.in_flight ++ s.joined_tasks) +
      countFailCounted (s.in_flight ++ s.joined_tasks) =
      (s.in_flight ++ s.joined_tasks).countP (fun t => t.phase.hasCounted) :=
    countSucc_add_countFail _
  have e2 : (s.in_flight ++ s.joined_tasks).countP (fun t => t.phase.hasCounted) =
      countDone (s.in_flight ++ s.joined_tasks) := by
    refine List.countP_congr ?_
    intro t ht
    rw [(nomid_phase_eq t.phase (hm t ht)).2]
  have e3 : countSuccCounted (s.in_flight ++ s.joined_tasks) =
      countSuccPushed (s.in_flight ++ s.joined_tasks) := by
    refine List.countP_congr ?_
    intro t ht
    rw [(nomid_phase_eq t.phase (hm t ht)).1]
  have e4 : countFailCounted (s.in_flight ++ s.joined_tasks) =
      countFailPushed (s.in_flight ++ s.joined_tasks) := by
    refine List.countP_congr ?_
    intro t ht
    rw [(nomid_phase_eq t.phase (hm t ht)).1]
  refine ⟨?_, ?_, ?_⟩
  · rw [ih.succ_eq, ih.fail_eq, ih.completed_eq, ← e2, ← e1]
  · rw [ih.succ_eq, ih.slog_len, e3]
  · rw [ih.fail_eq, ih.flog_len, e4]

/-- Claim C1 (amended): each of the three record effects is individually
atomic and each completing task performs all three exactly once, but
they are not one indivisible step.  The count/log agreement
(`successful + failed = completed`, each counter equal to its log
length) holds at every reachable state in which no task is inside its
record window — in particular whenever the scheduler loop has exited
(`pc = done`), which is the only point where `snapshot` (the final
report) reads the state. -/
theorem C1_record_agreement (cfg : Config) (s : PoolState) (h : Reachable cfg s) :
    ((∀ t ∈ s.in_flight, t.phase.midRecord = false) →
      s.successful_tasks + s.failed_tasks = s.completed_tasks ∧
      s.successful_tasks = s.successful_durations.length ∧
      s.failed_tasks = s.failed_durations.length) ∧
    (s.pc = .done →
      s.successful_tasks + s.failed_tasks = s.completed_tasks ∧
      s.successful_tasks = s.successful_durations.length ∧
      s.failed_tasks = s.failed_durations.length) := by
  have ih := inv_reachable h
  constructor
  · intro hm
    refine record_eqs_of_nomid ih ?_
    intro t ht
    rcases List.mem_append.mp ht with h1 | h2
    · exact hm t h1
    · rw [ih.joined_fin t h2]
      rfl
  · intro hd
    rcases ih.done_inv hd with hcn | hc0
    · refine record_eqs_of_nomid ih ?_
      have hcd := ih.completed_eq
      have hsp := ih.spawned_eq
      have hcle := ih.counter_le
      have hb : countDone (s.in_flight ++ s.joined_tasks) ≤
          (s.in_flight ++ s.joined_tasks).length := List.countP_le_length _
      have hlen : countDone (s.in_flight ++ s.joined_tasks) =
          (s.in_flight ++ s.joined_tasks).length := by
        simp only [List.length_append] at hb ⊢
        omega
      have hall := (List.countP_eq_length).mp hlen
      intro t ht
      exact isDone_not_mid t.phase (hall t ht)
    · have hm0 : poolBound cfg = 0 := by
        rw [poolBound, hc0]
        simp
      have hc := ih.mzero_counter hm0
      have hsp := ih.spawned_eq
      have hif : s.in_flight = [] := List.length_eq_zero.mp (by omega)
      have hjo : s.joined_tasks = [] := List.length_eq_zero.mp (by omega)
      refine record_eqs_of_nomid ih ?_
      intro t ht
      rw [hif, hjo] at ht
      simp at ht

theorem C1_record_agreement_witness :
    (∀ t ∈ initState.in_flight, t.phase.midRecord = false) ∧
    (initState.successful_tasks + initState.failed_tasks = initState.completed_tasks ∧
      initState.successful_tasks = initState.successful_durations.length ∧
      initState.failed_tasks = initState.failed_durations.length) :=
  ⟨by intro t ht; simp [initState] at ht,
    (C1_record_agreement cexConfig initState Relation.ReflTransGen.refl).1
      (by intro t ht; simp [initState] at ht)⟩

/-- When the initial batch is empty (`min(concurrency, total_tasks) = 0`)
nothing is ever launched and the final report is the empty report. -/
theorem mkReport_empty_of_bound_zero {cfg : Config} {s : PoolState} (ih : Inv cfg s)
    (hm0 : poolBound cfg = 0) :
    mkReport cfg s = emptyReport ∧ s.launched_ids = [] ∧
    s.task_id_counter = 0 ∧ s.completed_tasks = 0 := by
  have hc := ih.mzero_counter hm0
  have hsp := ih.spawned_eq
  have hif : s.in_flight = [] := List.length_eq_zero.mp (by omega)
  have hjo : s.joined_tasks = [] := List.length_eq_zero.mp (by omega)
  have hcd : s.completed_tasks = 0 := by rw [ih.completed_eq, hif, hjo]; rfl
  have hsc : s.successful_tasks = 0 := by rw [ih.succ_eq, hif, hjo]; rfl
  have hfc : s.failed_tasks = 0 := by rw [ih.fail_eq, hif, hjo]; rfl
  have hsl : s.successful_durations = [] := by
    have hx := ih.slog_len
    rw [hif, hjo] at hx
    refine List.length_eq_zero.mp ?_
    simpa [countSuccPushed] using hx
  have hfl : s.failed_durations = [] := by
    have hx := ih.flog_len
    rw [hif, hjo] at hx
    refine List.length_eq_zero.mp ?_
    simpa [countFailPushed] using hx
  have hla : s.launched_ids = [] := by rw [ih.launched_eq, hc]; rfl
  refine ⟨?_, hla, hc, hcd⟩
  simp only [mkReport, emptyReport, hcd, hsc, hfc, hsl, hfl, statsOf, List.isEmpty_nil,
    if_true]
  refine FinalReport.mk.injEq _ _ _ _ _ _ _ _ _ _ _ _ ▸ ?_
  simp

/-- Claim C6: with `total_tasks = 0` (any concurrency) nothing is ever
launched in any execution, every completed run reports the empty report
(all counts zero, no duration sections) with exit code 0, and such a
completed run exists. -/
theorem C6_zero_tasks (a : Args) (env : Nat → SpawnResult) (durOf : Nat → Nat)
    (hn : a.total_tasks = 0) :
    (∀ s, Reachable ⟨a.total_tasks, a.concurrency, a.delay, env, durOf⟩ s →
      s.launched_ids = [] ∧ s.task_id_counter = 0 ∧
      mkReport ⟨a.total_tasks, a.concurrency, a.delay, env, durOf⟩ s = emptyReport) ∧
    (a.command ≠ [] → runExitCode a = 0) ∧
    (a.command ≠ [] → MainBehavior a env durOf (.finished 0 emptyReport)) := by
  have hm0 : poolBound ⟨a.total_tasks, a.concurrency, a.delay, env, durOf⟩ = 0 := by
    simp [poolBound, hn]
  refine ⟨?_, ?_, ?_⟩
  · intro s hs
    obtain ⟨h1, h2, h3, _⟩ := mkReport_empty_of_bound_zero (inv_reachable hs) hm0
    exact ⟨h2, h3, h1⟩
  · intro hne
    simp [runExitCode, hne]
  · intro hne
    obtain ⟨cmd, rest, hcmd⟩ := List.exists_cons_of_ne_nil hne
    have hreach : Reachable ⟨a.total_tasks, a.concurrency, a.delay, env, durOf⟩
        { initState with pc := .done } := by
      have h0 : Reachable ⟨a.total_tasks, a.concurrency, a.delay, env, durOf⟩ initState :=
        Relation.ReflTransGen.refl
      have h1 := Relation.ReflTransGen.tail h0
        (Step.initDone initState 0 rfl (by rw [hm0]; omega))
      exact Relation.ReflTransGen.tail h1 (Step.joinNone _ rfl rfl)
    have hrep := (mkReport_empty_of_bound_zero (inv_reachable hreach) hm0).1
    have hb := MainBehavior.run cmd rest { initState with pc := .done } hcmd hreach rfl
      rfl rfl
    rw [hrep] at hb
    exact hb

/-- Concrete arguments with zero tasks. -/
def w6Args : Args := ⟨4, 0, false, 100, ["true"]⟩

theorem C6_witness :
    (∀ s, Reachable ⟨w6Args.total_tasks, w6Args.concurrency, w6Args.delay,
        fun _ => .err "e", fun _ => 0⟩ s →
      s.launched_ids = [] ∧ s.task_id_counter = 0 ∧
      mkReport ⟨w6Args.total_tasks, w6Args.concurrency, w6Args.delay,
        fun _ => .err "e", fun _ => 0⟩ s = emptyReport) ∧
    (w6Args.command ≠ [] → runExitCode w6Args = 0) ∧
    (w6Args.command ≠ [] →
      MainBehavior w6Args (fun _ => .err "e") (fun _ => 0) (.finished 0 emptyReport)) :=
  C6_zero_tasks w6Args (fun _ => .err "e") (fun _ => 0) rfl

/-- Claim C9: with `concurrency = 0` and `total_tasks > 0` the run is a
silent no-op: no execution ever launches a task, every run that exits
the loop does so with zero completed tasks (fewer than `total_tasks`),
still prints the all-zero summary and exits 0, and such a completed run
exists. -/
theorem C9_zero_concurrency (a : Args) (env : Nat → SpawnResult) (durOf : Nat → Nat)
    (hc0 : a.concurrency = 0) (hn : 0 < a.total_tasks) :
    (∀ s, Reachable ⟨a.total_tasks, a.concurrency, a.delay, env, durOf⟩ s →
      s.launched_ids = [] ∧ s.task_id_counter = 0 ∧
      s.completed_tasks = 0 ∧ s.completed_tasks < a.total_tasks ∧
      mkReport ⟨a.total_tasks, a.concurrency, a.delay, env, durOf⟩ s = emptyReport) ∧
    (a.command ≠ [] → runExitCode a = 0) ∧
    (a.command ≠ [] → MainBehavior a env durOf (.finished 0 emptyReport)) := by
  have hm0 : poolBound ⟨a.total_tasks, a.concurrency, a.delay, env, durOf⟩ = 0 := by
    simp [poolBound, hc0]
  refine ⟨?_, ?_, ?_⟩
  · intro s hs
    obtain ⟨h1, h2, h3, h4⟩ := mkReport_empty_of_bound_zero (inv_reachable hs) hm0
    exact ⟨h2, h3, h4, by omega, h1⟩
  · intro hne
    simp [runExitCode, hne]
  · intro hne
    obtain ⟨cmd, rest, hcmd⟩ := List.exists_cons_of_ne_nil hne
    have hreach : Reachable ⟨a.total_tasks, a.concurrency, a.delay, env, durOf⟩
        { initState with pc := .done } := by
      have h0 : Reachable ⟨a.total_tasks, a.concurrency, a.delay, env, durOf⟩ initState :=
        Relation.ReflTransGen.refl
      have h1 := Relation.ReflTransGen.tail h0
        (Step.initDone initState 0 rfl (by rw [hm0]; omega))
      exact Relation.ReflTransGen.tail h1 (Step.joinNone _ rfl rfl)
    have hrep := (mkReport_empty_of_bound_zero (inv_reachable hreach) hm0).1
    have hb := MainBehavior.run cmd rest { initState with pc := .done } hcmd hreach rfl
      rfl rfl
    rw [hrep] at hb
    exact hb

/-- Concrete arguments with concurrency 0 and three tasks. -/
def w9Args : Args := ⟨0, 3, false, 100, ["true"]⟩

theorem C9_witness :
    (∀ s, Reachable ⟨w9Args.total_tasks, w9Args.concurrency, w9Args.delay,
        fun _ => .err "e", fun _ => 0⟩ s →
      s.launched_ids = [] ∧ s.task_id_counter = 0 ∧
      s.completed_tasks = 0 ∧ s.completed_tasks < w9Args.total_tasks ∧
      mkReport ⟨w9Args.total_tasks, w9Args.concurrency, w9Args.delay,
        fun _ => .err "e", fun _ => 0⟩ s = emptyReport) ∧
    (w9Args.command ≠ [] → runExitCode w9Args = 0) ∧
    (w9Args.command ≠ [] →
      MainBehavior w9Args (fun _ => .err "e") (fun _ => 0) (.finished 0 emptyReport)) :=
  C9_zero_concurrency w9Args (fun _ => .err "e") (fun _ => 0) rfl (by decide)

/-- A member of a non-empty duration log lies between the reported
minimum and maximum. -/
theorem statsOf_bounds_mem (l : List Nat) (x : Nat) (hx : x ∈ l) (ds : DurationStats)
    (hds : statsOf l = some ds) : ds.minD ≤ x ∧ x ≤ ds.maxD := by
  cases l with
  | nil => simp at hx
  | cons c cs =>
    simp only [statsOf, List.isEmpty_cons, Bool.false_eq_true, if_false,
      Option.some.injEq] at hds
    rw [← hds]
    constructor
    · show (c :: cs).min?.getD 0 ≤ x
      rw [List.min?_cons']
      simp only [Option.getD_some]
      exact foldl_min_le_mem cs c x hx
    · show x ≤ (c :: cs).max?.getD 0
      rw [List.max?_cons']
      simp only [Option.getD_some]
      exact le_foldl_max_mem cs c x hx

/-- Claim C10 (amended): the measured duration of a task whose spawn
failed is appended to the failed-duration log exactly like a
nonzero-exit task's duration, so once such a task has pushed (line 126)
its duration is in the failed log and the failed statistics block of
the report is computed from that log, with average equal to the
duration sum divided by the `as u32`-truncated length; provided the
failed log has fewer than 2^32 entries, the duration lies between the
reported failed minimum and maximum and the average is the true
sum/count.  With 2^32 or more failed entries the truncated divisor
corrupts the average, and a failed log whose length is a nonzero
multiple of 2^32 panics before any report is printed (see
`C10_counterexample` and `c10_no_report`). -/
theorem C10_spawn_error_duration (cfg : Config) (s : PoolState) (t : TaskUnit)
    (msg : String) (h : Reachable cfg s) (ht : t ∈ s.in_flight ++ s.joined_tasks)
    (hres : t.res = .err msg) (hpu : t.phase.hasPushed = true) :
    t.dur ∈ s.failed_durations ∧ s.failed_durations ≠ [] ∧
    (mkReport cfg s).failedStats = statsOf s.failed_durations ∧
    ∀ ds, (mkReport cfg s).failedStats = some ds →
      ds.avg = s.failed_durations.sum / lenU32 s.failed_durations ∧
      (s.failed_durations.length < 2 ^ 32 →
        ds.minD ≤ t.dur ∧ t.dur ≤ ds.maxD ∧
        ds.avg = s.failed_durations.sum / s.failed_durations.length) := by
  have ih := inv_reachable h
  have hrs : recordSuccess t.res = false := by rw [hres]; rfl
  have hmem := (ih.dur_mem t ht hpu).2 hrs
  refine ⟨hmem, ?_, rfl, ?_⟩
  · intro he
    rw [he] at hmem
    simp at hmem
  · intro ds hds
    have hb := statsOf_bounds_mem s.failed_durations t.dur hmem ds hds
    have hsp := (statsOf_spec s.failed_durations).2 ds hds
    exact ⟨hsp.1, fun hlt => ⟨hb.1, hb.2, (hsp.2 hlt).1⟩⟩

/-- The counterexample-style configuration whose single task's spawn
fails after 7ns. -/
def w10Config : Config := ⟨1, 1, 0, fun _ => .err "boom", fun _ => 7⟩

/-- Task 1 of the spawn-error run, at a given phase. -/
def w10Task (p : TaskPhase) : TaskUnit := ⟨1, .err "boom", 7, p⟩

/-- The spawn-error run just after task 1 pushed its duration. -/
def w10State : PoolState where
  pc := .joinWait
  task_id_counter := 1
  completed_tasks := 0
  successful_tasks := 0
  failed_tasks := 1
  running_tasks := 1
  successful_durations := []
  failed_durations := [7]
  in_flight := [w10Task .pushed]
  joined_tasks := []
  launched_ids := [1]
  events := [.launch 1]

theorem w10_reachable : Reachable w10Config w10State := by
  have h0 : Reachable w10Config initState := Relation.ReflTransGen.refl
  have h1 := Relation.ReflTransGen.tail h0 (Step.initSpawn initState 0 rfl (by decide))
  have h2 := Relation.ReflTransGen.tail h1 (Step.initDone _ 1 rfl (by decide))
  have h3 := Relation.ReflTransGen.tail h2
    (Step.taskStart _ [] [] (w10Task .spawned) rfl rfl)
  have h4 := Relation.ReflTransGen.tail h3
    (Step.taskCount _ [] [] (w10Task .running) rfl rfl)
  have h5 := Relation.ReflTransGen.tail h4
    (Step.taskPush _ [] [] (w10Task .counted) rfl rfl)
  exact h5

theorem C10_witness :
    (w10Task .pushed ∈ w10State.in_flight ++ w10State.joined_tasks ∧
      (w10Task .pushed).res = .err "boom" ∧
      (w10Task .pushed).phase.hasPushed = true) ∧
    ((w10Task .pushed).dur ∈ w10State.failed_durations ∧
      w10State.failed_durations ≠ [] ∧
      (mkReport w10Config w10State).failedStats = statsOf w10State.failed_durations ∧
      ∀ ds, (mkReport w10Config w10State).failedStats = some ds →
        ds.avg = w10State.failed_durations.sum / lenU32 w10State.failed_durations ∧
        (w10State.failed_durations.length < 2 ^ 32 →
          ds.minD ≤ (w10Task .pushed).dur ∧ (w10Task .pushed).dur ≤ ds.maxD ∧
          ds.avg =
            w10State.failed_durations.sum / w10State.failed_durations.length)) :=
  ⟨⟨by simp [w10State], rfl, rfl⟩,
    C10_spawn_error_duration w10Config w10State (w10Task .pushed) "boom"
      w10_reachable (by simp [w10State]) rfl rfl⟩

theorem flatten_singletons {α β : Type} (f : α → β) (l : List α) :
    (l.map (fun a => [f a])).flatten = l.map f := by
  induction l with
  | nil => rfl
  | cons a as ihl => simp [ihl]

theorem initPrefix_zero_delay (mI k : Nat) :
    initPrefix mI 0 k = (List.range' 1 k).map LaunchEvent.launch := by
  have h1 : initPrefix mI 0 k =
      ((List.range k).map (fun i => [LaunchEvent.launch (i + 1)])).flatten := by
    simp [initPrefix, staggerEvents]
  rw [h1, flatten_singletons]
  rw [List.range'_eq_map_range, List.map_map]
  refine List.map_congr_left ?_
  intro i _
  simp [Nat.add_comm]

theorem initPrefix_stagger (mI d : Nat) (hd : 0 < d) (hm : 0 < mI) :
    initPrefix mI d mI =
      ((List.range' 1 (mI - 1)).map
        (fun j => [LaunchEvent.launch j, LaunchEvent.sleep d])).flatten ++
      [LaunchEvent.launch mI] := by
  obtain ⟨k, rfl⟩ : ∃ k, mI = k + 1 := ⟨mI - 1, by omega⟩
  rw [initPrefix, List.range_succ, List.map_append, List.flatten_append]
  have hlast : staggerEvents (k + 1) d k = [] := by simp [staggerEvents]
  have hmap : (List.range k).map
        (fun i => LaunchEvent.launch (i + 1) :: staggerEvents (k + 1) d i) =
      (List.range k).map (fun i => [LaunchEvent.launch (i + 1), LaunchEvent.sleep d]) := by
    refine List.map_congr_left ?_
    intro i hi
    have hik : i < k := List.mem_range.mp hi
    simp [staggerEvents, hd, hik]
  rw [hmap]
  simp only [List.map_cons, List.map_nil, hlast, List.flatten_cons, List.flatten_nil,
    List.append_nil, Nat.add_sub_cancel]
  congr 1
  rw [List.range'_eq_map_range, List.map_map]
  congr 1
  refine List.map_congr_left ?_
  intro i _
  simp [Nat.add_comm]

/-- Claim C8: the event trace of every reachable state is the staggered
initial-batch prefix followed by stagger-free replacement launches; with
a zero delay the initial prefix has no sleeps at all, and with a
positive delay the full initial prefix sleeps exactly once after every
initial launch except the last. -/
theorem C8_stagger (cfg : Config) (s : PoolState) (h : Reachable cfg s) :
    s.events =
      initPrefix (poolBound cfg) cfg.delay (min s.task_id_counter (poolBound cfg)) ++
        (List.range' (poolBound cfg + 1) (s.task_id_counter - poolBound cfg)).map
          LaunchEvent.launch ∧
    (cfg.delay = 0 → initPrefix (poolBound cfg) 0 (poolBound cfg) =
      (List.range' 1 (poolBound cfg)).map LaunchEvent.launch) ∧
    (0 < cfg.delay → 0 < poolBound cfg →
      initPrefix (poolBound cfg) cfg.delay (poolBound cfg) =
        ((List.range' 1 (poolBound cfg - 1)).map
          (fun j => [LaunchEvent.launch j, LaunchEvent.sleep cfg.delay])).flatten ++
        [LaunchEvent.launch (poolBound cfg)]) := by
  refine ⟨(inv_reachable h).events_eq, ?_, ?_⟩
  · intro _
    exact initPrefix_zero_delay _ _
  · intro hd hm
    exact initPrefix_stagger _ _ hd hm

/-- A concrete configuration: 2 tasks at concurrency 2, delay 10ms. -/
def w8Config : Config := ⟨2, 2, 10, fun _ => .ok ⟨some 0, "", ""⟩, fun _ => 1⟩

theorem C8_witness :
    initState.events =
      initPrefix (poolBound w8Config) w8Config.delay
          (min initState.task_id_counter (poolBound w8Config)) ++
        (List.range' (poolBound w8Config + 1)
          (initState.task_id_counter - poolBound w8Config)).map LaunchEvent.launch ∧
    initPrefix (poolBound w8Config) w8Config.delay (poolBound w8Config) =
      ((List.range' 1 (poolBound w8Config - 1)).map
        (fun j => [LaunchEvent.launch j, LaunchEvent.sleep w8Config.delay])).flatten ++
      [LaunchEvent.launch (poolBound w8Config)] :=
  ⟨(C8_stagger w8Config initState Relation.ReflTransGen.refl).1,
    (C8_stagger w8Config initState Relation.ReflTransGen.refl).2.2 (by decide) (by decide)⟩

theorem foldl_min_replicate : ∀ (n a : Nat), (List.replicate n a).foldl min a = a := by
  intro n
  induction n with
  | zero => intro a; rfl
  | succ k ihn =>
    intro a
    rw [List.replicate_succ]
    show (List.replicate k a).foldl min (min a a) = a
    rw [Nat.min_self]
    exact ihn a

theorem foldl_max_replicate : ∀ (n a : Nat), (List.replicate n a).foldl max a = a := by
  intro n
  induction n with
  | zero => intro a; rfl
  | succ k ihn =>
    intro a
    rw [List.replicate_succ]
    show (List.replicate k a).foldl max (max a a) = a
    rw [Nat.max_self]
    exact ihn a

/-- A successful-duration log of 2^32 + 1 samples of 2ns each: the
aggregate of a run with `total_tasks = 2 ^ 32 + 1` whose every command
exits 0 after 2ns. -/
def c7Log : List Nat := List.replicate (2 ^ 32 + 1) 2

/-- The oversized run: 2^32 + 1 tasks (`total_tasks` is a 64-bit
`usize`, unclamped), each exiting 0 after 2ns. -/
def c7Config : Config := ⟨2 ^ 32 + 1, 1, 0, fun _ => .ok ⟨some 0, "", ""⟩, fun _ => 2⟩

/-- The final aggregate state of such an oversized run. -/
def c7State : PoolState := { initState with successful_durations := c7Log }

theorem c7Log_sum : c7Log.sum = 8589934594 := by
  rw [c7Log, List.sum_const_nat]
  norm_num

theorem c7Log_stats : statsOf c7Log = some ⟨8589934594, 2, 2⟩ := by
  have hmin : c7Log.min? = some 2 := by
    rw [c7Log, List.replicate_succ, List.min?_cons', foldl_min_replicate]
  have hmax : c7Log.max? = some 2 := by
    rw [c7Log, List.replicate_succ, List.max?_cons', foldl_max_replicate]
  have hne : c7Log.isEmpty = false := by
    rw [c7Log, List.replicate_succ]
    rfl
  have hlen : lenU32 c7Log = 1 := by
    rw [lenU32, c7Log, List.length_replicate]
    norm_num
  simp only [statsOf, hne, Bool.false_eq_true, if_false, c7Log_sum, hlen, hmin, hmax,
    Option.getD_some, Nat.div_one]

/-- Claim C7 counterexample: at a successful-duration log of 2^32 + 1
entries of 2ns each, the `len() as u32` cast at `main.rs` 268 truncates
the divisor to 1, so the reported average is 8589934594ns — it is not
the sum of the durations divided by their count (2ns) and lies far
above the reported maximum (2ns). -/
theorem C7_counterexample :
    (mkReport c7Config c7State).successStats = some ⟨8589934594, 2, 2⟩ ∧
    DurationStats.avg ⟨8589934594, 2, 2⟩ ≠
      c7State.successful_durations.sum / c7State.successful_durations.length ∧
    ¬ DurationStats.avg ⟨8589934594, 2, 2⟩ ≤ DurationStats.maxD ⟨8589934594, 2, 2⟩ := by
  have h1 : c7State.successful_durations = c7Log := rfl
  refine ⟨?_, ?_, by decide⟩
  · simp only [mkReport, h1]
    exact c7Log_stats
  · show (8589934594 : Nat) ≠ c7State.successful_durations.sum /
      c7State.successful_durations.length
    have hlen : c7Log.length = 2 ^ 32 + 1 := by rw [c7Log, List.length_replicate]
    rw [h1, c7Log_sum, hlen]
    decide

/-- A failed-duration log of exactly 2^32 samples of 7ns: the aggregate
of a run of `total_tasks = 2 ^ 32` spawn-error tasks. -/
def c10FailLog : List Nat := List.replicate (2 ^ 32) 7

/-- The final aggregate state of such a run. -/
def c10State : PoolState := { initState with failed_durations := c10FailLog }

/-- Claim C10 counterexample: with 2^32 failed tasks of 7ns each, every
spawn-error duration is in the failed log, yet the log's length
truncates to 0 `as u32`, so the statistics computation at `main.rs` 281
is a `Duration` division by zero and the run panics: there is no final
report whose failed average/min/max statistics could include the
durations (`c10_no_report` shows every behaviour of this run is the
panic). -/
theorem C10_counterexample :
    (7 : Nat) ∈ c10State.failed_durations ∧
    c10State.failed_durations ≠ [] ∧
    statsPanic c10State.failed_durations = true := by
  have h7 : (7 : Nat) ∈ c10FailLog :=
    List.mem_replicate.mpr ⟨by norm_num, rfl⟩
  have hne : c10FailLog ≠ [] := List.ne_nil_of_mem h7
  refine ⟨h7, hne, ?_⟩
  have h1 : c10FailLog.isEmpty = false := by
    cases hx : c10FailLog with
    | nil => exact absurd hx hne
    | cons a l => rfl
  show statsPanic c10FailLog = true
  have h2 : lenU32 c10FailLog = 0 := by
    rw [lenU32, c10FailLog, List.length_replicate]
    simp
  simp only [statsPanic, h1, h2]
  rfl

/-- The oversized all-failure invocation: 2^32 tasks at concurrency 1,
command `nonexistent`, no stagger delay. -/
def c10Args : Args := ⟨1, 2 ^ 32, false, 0, ["nonexistent"]⟩

/-- Running `c10Args` with every spawn failing: any behaviour of `main`
is the panic.  At loop exit all 2^32 tasks have pushed onto the failed
log, whose length truncates to 0 `as u32`, so the statistics division
at `main.rs` 281 panics and no report is printed. -/
theorem c10_no_report (o : MainOutcome)
    (hb : MainBehavior c10Args (fun _ => .err "boom") (fun _ => 7) o) :
    o = .panicked := by
  cases hb with
  | emptyCommand h => exact absurd h (by decide)
  | panicStats _ _ _ _ _ _ _ => rfl
  | run cmd rest s hcmd hreach hdone hps hpf =>
    exfalso
    have ih := inv_reachable hreach
    rcases ih.done_inv hdone with hcn | hc0
    · have hcd := ih.completed_eq
      have hsp := ih.spawned_eq
      have hcle := ih.counter_le
      have hb2 : countDone (s.in_flight ++ s.joined_tasks) ≤
          (s.in_flight ++ s.joined_tasks).length := List.countP_le_length _
      have hlen : countDone (s.in_flight ++ s.joined_tasks) =
          (s.in_flight ++ s.joined_tasks).length := by
        simp only [List.length_append] at hb2 ⊢
        omega
      have hall := List.countP_eq_length.mp hlen
      have hcount : countFailPushed (s.in_flight ++ s.joined_tasks) =
          (s.in_flight ++ s.joined_tasks).length := by
        rw [countFailPushed, List.countP_eq_length]
        intro t ht
        have hdone_t : t.phase.isDone = true := hall t ht
        have hre := (ih.res_env t ht).1
        have hrs : recordSuccess t.res = false := by rw [hre]; rfl
        have hpu : t.phase.hasPushed = true := by
          revert hdone_t
          cases t.phase <;> decide
        simp [hrs, hpu]
      have hfl_len : s.failed_durations.length = s.task_id_counter := by
        rw [ih.flog_len, hcount]
        simp only [List.length_append]
        omega
      have hcnt : s.task_id_counter = c10Args.total_tasks := by
        have hcn2 : s.completed_tasks = c10Args.total_tasks := hcn
        have hcle2 : s.task_id_counter ≤ c10Args.total_tasks := hcle
        simp only [List.length_append] at hlen hsp
        omega
      have hne : s.failed_durations ≠ [] := by
        intro he
        rw [he] at hfl_len
        simp only [List.length_nil] at hfl_len
        rw [hcnt] at hfl_len
        exact absurd hfl_len.symm (by decide)
      have hpanic : statsPanic s.failed_durations = true := by
        have h1 : s.failed_durations.isEmpty = false := by
          cases hx : s.failed_durations with
          | nil => exact absurd hx hne
          | cons a l => rfl
        simp only [statsPanic, h1, lenU32, hfl_len, hcnt]
        decide
      rw [hpanic] at hpf
      cases hpf
    · exact absurd hc0 (by decide)

end CommandPool
